import Mathlib

/-!
Shallow embedding of the fusion-c validation engine (src/Abnf/src/abnf.cpp,
src/Fsm/src/fsm.cpp) and proofs about its specification claims.

Modelling conventions:
* A byte is `Fin 256`; `char` inputs are modelled after the source's cast to
  `uint8_t` at every membership test.
* `std::bitset<256>` is modelled as a function `Fin 256 → Bool`.
* `StateID` equality and hashing are by numeric id only (the `name` string is
  advisory), so states are identified by their `Nat` id; id 0 is the invalid
  id (`StateID::isValid`).
* Human-readable strings (descriptions, error messages, input-context
  excerpts) and wall-clock timing metrics are not modelled; no claim
  concerns them.
* Callbacks (`on_entry`, `on_exit`, `on_transition`) interact with the
  executor through the capture-group API; a callback is modelled as the list
  of `beginCapture`/`endCapture` calls it performs.  The `std::logic_error`
  thrown by `beginCapture` on a duplicate name or `endCapture` on an
  unknown name is modelled by `Option`: a `none` result of an executor means
  the C++ run aborted by exception.
* The lazily rebuilt outgoing-transition index (`rebuildTransitionMap`) is a
  memoised pure index; it is modelled by recomputing the sorted outgoing
  list at each lookup.  `std::sort` by priority descending is unstable, so
  the source guarantees only that the index is a permutation of the
  outgoing transitions sorted by priority descending, with the order of
  equal priorities unspecified (the contract `PrioPerm` below).  The model
  instantiates one conforming choice, a stable insertion sort
  (`sortByPriority`); every statement about tie order among equal
  priorities is settled against `PrioPerm`, never against the instantiated
  order (see claim C4).
-/

/-- A byte value, the 256-symbol alphabet of the engine. -/
abbrev Byte := Fin 256

/-! ## Character classes (`ABNF`, src/Abnf/src/abnf.cpp) -/

/-- `ABNF`: a character-class predicate over bytes.  The C++ class stores a
`std::bitset<256>` membership set (plus a debug description string, not
modelled). -/
structure ABNF where
  charSet : Byte → Bool

namespace ABNF

/-- `ABNF::matches`: membership test (`char_set_[value]`).  `matches` is a
Lean keyword, hence the `Byte` suffix. -/
def matchesByte (a : ABNF) (b : Byte) : Bool := a.charSet b

/-- `ABNF::unionWith`: element-wise union (`char_set_ | other.char_set_`). -/
def unionWith (a b : ABNF) : ABNF := ⟨fun x => a.charSet x || b.charSet x⟩

/-- `ABNF::intersectWith`: element-wise intersection (`char_set_ & other.char_set_`). -/
def intersectWith (a b : ABNF) : ABNF := ⟨fun x => a.charSet x && b.charSet x⟩

/-- `ABNF::complement`: element-wise complement (`~char_set_`). -/
def complement (a : ABNF) : ABNF := ⟨fun x => !a.charSet x⟩

/-- Single-character class, `ABNF(char ch)` / `ABNF(uint8_t value)`: sets one bit. -/
def literal (c : Byte) : ABNF := ⟨fun x => x == c⟩

/-- Range class `ABNF(uint8_t start, uint8_t end)`: sets every bit in the
inclusive range (`setRange`). -/
def range (lo hi : Byte) : ABNF := ⟨fun x => lo ≤ x && x ≤ hi⟩

/-- `ABNF::digit()`: DIGIT is `%x30-39` (`initFromCoreRule`, case `DIGIT`). -/
def digit : ABNF := range 0x30 0x39

/-- `ABNF::alpha()`: ALPHA is `%x41-5A / %x61-7A` (`initFromCoreRule`, case `ALPHA`). -/
def alpha : ABNF := ⟨fun x => (0x41 ≤ x && x ≤ 0x5A) || (0x61 ≤ x && x ≤ 0x7A)⟩

end ABNF

/-! ## Capture groups and callbacks -/

/-- A closed capture group (`CaptureGroup`): name, begin and end positions,
and the recorded bytes (`value`). -/
structure CaptureGroup where
  name : String
  startPosition : Nat
  endPosition : Nat
  value : List Byte
  deriving Repr, DecidableEq

/-- An open capture group (`ActiveCapture`): name, begin position, and the
bytes accumulated so far (`buffer`). -/
structure ActiveCapture where
  name : String
  startPosition : Nat
  buffer : List Byte
  deriving Repr, DecidableEq

/-- One capture-API call performed by a user callback: `FSM::beginCapture`
or `FSM::endCapture`. -/
inductive CapCmd where
  | beginCap (name : String)
  | endCap (name : String)
  deriving Repr, DecidableEq

/-- A user callback, modelled as the sequence of capture-API calls it
performs when fired. -/
abbrev Callback := List CapCmd

/-! ## Graph model (`State`, `Transition`, `FSM`) -/

/-- `StateType`: the tag stored on each state. -/
inductive StateType where
  | NORMAL
  | START
  | ACCEPT
  | ERROR
  deriving Repr, DecidableEq

/-- `State`: id, type tag, choice-point flag and optional callbacks
(description string not modelled). -/
structure State where
  id : Nat
  type : StateType
  isChoicePoint : Bool := false
  onEntry : Option Callback := none
  onExit : Option Callback := none

/-- `TransitionType`: edge kinds.  `FSM_INSTANCE` edges carry an embedded
machine used only by graph composition (`mergeEmbeddedFSM`), which no claim
exercises; the executors only test the tag, so the payload is not
modelled. -/
inductive TransitionType where
  | ABNF_RULE
  | FSM_INSTANCE
  | EPSILON
  deriving Repr, DecidableEq

/-- `Transition`: id, endpoints (`from`/`to` in the source; `from` is a Lean
keyword, hence `src`/`dst`), kind tag, optional character class, priority and
optional callback. -/
structure Transition where
  id : Nat
  src : Nat
  dst : Nat
  type : TransitionType
  rule : Option ABNF := none
  priority : Int := 50
  onTransition : Option Callback := none

namespace Transition

/-- `Transition::matches`: true only for an `ABNF_RULE` edge whose class
admits the byte (`matches` is a Lean keyword, hence the `Byte` suffix). -/
def matchesByte (t : Transition) (ch : Byte) : Bool :=
  match t.type, t.rule with
  | TransitionType.ABNF_RULE, some r => r.matchesByte ch
  | _, _ => false

end Transition

/-- `FSM` graph data: states, transitions (in insertion order), start state
id, accept-state id set and the backtracking depth bound.  The mutable
executor state of the C++ object is split into `ExecSt`/`MachSt` below. -/
structure FSM where
  states : List State
  transitions : List Transition
  startState : Nat
  acceptStates : List Nat
  maxBacktrackDepth : Nat := 0

/-! ## Executor state -/

/-- `DebugFlags` bitset, modelled by its five Boolean components. -/
structure DebugConfig where
  traceTransitions : Bool := false
  traceStateChanges : Bool := false
  verboseErrors : Bool := false
  collectMetrics : Bool := false
  exportDotOnError : Bool := false
  deriving Repr, DecidableEq

/-- `FSM::Metrics` counters (wall-clock fields not modelled). -/
structure Metrics where
  transitionsTaken : Nat := 0
  statesVisited : Nat := 0
  charactersProcessed : Nat := 0
  epsilonTransitions : Nat := 0
  deriving Repr, DecidableEq

/-- `FSM::ErrorType`. -/
inductive ErrorType where
  | NO_MATCHING_TRANSITION
  | UNEXPECTED_END_OF_INPUT
  | NOT_IN_ACCEPT_STATE
  | EMBEDDED_FSM_FAILED
  | INVALID_STATE
  | INVALID_TRANSITION
  | AMBIGUOUS_TRANSITION
  | NO_START_STATE
  | UNREACHABLE_STATES
  deriving Repr, DecidableEq

/-- `FSM::ValidationError` (message, attempted states and context strings
not modelled). -/
structure VError where
  etype : ErrorType
  position : Nat
  character : Byte
  currentState : Nat
  deriving Repr, DecidableEq

/-- `FSM::TraceEntry` (description string not modelled). -/
structure TraceEntry where
  step : Nat
  fromState : Nat
  toState : Nat
  inputChar : Byte
  transitionId : Nat
  deriving Repr, DecidableEq

/-- `StreamState`. -/
inductive StreamState where
  | READY
  | PROCESSING
  | WAITING_FOR_INPUT
  | COMPLETE
  | ERROR
  deriving Repr, DecidableEq

/-- `BacktrackingStats`. -/
structure BtStats where
  choicePointsCreated : Nat := 0
  backtracksPerformed : Nat := 0
  maxStackDepth : Nat := 0
  pathsExplored : Nat := 0
  deriving Repr, DecidableEq

/-- `ChoicePoint`: snapshot pushed by the backtracking executor. -/
structure ChoicePoint where
  state : Nat
  position : Nat
  remaining : List Transition
  capturesSnapshot : List CaptureGroup
  activeCapturesSnapshot : List ActiveCapture
  inputPositionSnapshot : Nat

/-- The executor-core mutable state of a C++ `FSM` object: the fields read
and written by the per-byte and epsilon machinery. -/
structure ExecSt where
  current : Nat
  lastError : Option VError := none
  captures : List CaptureGroup := []
  activeCaptures : List ActiveCapture := []
  inputPos : Nat := 0
  trace : List TraceEntry := []
  metrics : Metrics := {}
  debug : DebugConfig := {}

/-- The remaining mutable state of a C++ `FSM` object: streaming status and
the backtracking stack/statistics.  Together with `ExecSt` this covers every
executor-visible mutable member. -/
structure MachSt where
  exec : ExecSt
  streamState : StreamState := StreamState.READY
  streamingMode : Bool := false
  choiceStack : List ChoicePoint := []
  btStats : BtStats := {}

/-- Runtime state of a freshly constructed machine: `current_state_` is the
start state, every other mutable member is default-initialised. -/
def initMach (m : FSM) (dbg : DebugConfig) : MachSt :=
  { exec := { current := m.startState, debug := dbg } }

/-! ## Graph lookups -/

/-- Stable insertion of a transition into a priority-descending list: the
new element goes after every element of priority ≥ its own. -/
def insertPrio (t : Transition) : List Transition → List Transition
  | [] => [t]
  | u :: us => if t.priority ≤ u.priority then u :: insertPrio t us else t :: u :: us

/-- Stable sort by priority descending (model of
`std::sort(..., a->priority > b->priority)` in `rebuildTransitionMap`). -/
def sortByPriority (l : List Transition) : List Transition :=
  l.foldl (fun acc t => insertPrio t acc) []

/-- `FSM::getTransitionsFrom` / `rebuildTransitionMap`: outgoing transitions
of a state, sorted by priority descending (insertion order on ties). -/
def getTransitionsFrom (m : FSM) (s : Nat) : List Transition :=
  sortByPriority (m.transitions.filter (fun t => t.src == s))

/-- Lookup of `states_[id]` (`std::unordered_map` keyed by numeric id). -/
def findState (m : FSM) (i : Nat) : Option State :=
  m.states.find? (fun s => s.id == i)

/-- The `on_entry` callback of a state, if any. -/
def entryCbOf (m : FSM) (i : Nat) : Option Callback :=
  (findState m i).bind (fun s => s.onEntry)

/-- The `on_exit` callback of a state, if any. -/
def exitCbOf (m : FSM) (i : Nat) : Option Callback :=
  (findState m i).bind (fun s => s.onExit)

/-- `FSM::isChoicePoint`: the flag of the state, false when absent. -/
def isChoicePointOf (m : FSM) (i : Nat) : Bool :=
  match findState m i with
  | none => false
  | some s => s.isChoicePoint

/-- `FSM::isAcceptState`: membership in the accept-state id set. -/
def isAcceptState (m : FSM) (s : Nat) : Bool :=
  m.acceptStates.contains s

/-- `FSM::removeAcceptState`: erases the id from the accept set; the
`State::type` tag is left untouched. -/
def removeAcceptState (m : FSM) (s : Nat) : FSM :=
  { m with acceptStates := m.acceptStates.filter (fun a => a ≠ s) }

/-! ## Capture operations -/

/-- `FSM::beginCapture`: pushes an active capture at the current input
position; a duplicate active name throws (`none`). -/
def beginCapture (name : String) (ex : ExecSt) : Option ExecSt :=
  if ex.activeCaptures.any (fun a => a.name == name) then none
  else some { ex with activeCaptures :=
    ex.activeCaptures ++ [{ name := name, startPosition := ex.inputPos, buffer := [] }] }

/-- Removes the first list element satisfying the predicate, returning it and
the remainder (the `active_captures_` erase in `FSM::endCapture`). -/
def extractFirst (p : ActiveCapture → Bool) :
    List ActiveCapture → Option (ActiveCapture × List ActiveCapture)
  | [] => none
  | a :: rest =>
    if p a then some (a, rest)
    else (extractFirst p rest).map (fun x => (x.1, a :: x.2))

/-- `FSM::endCapture`: closes the first matching active capture at the
current input position; an unknown name throws (`none`). -/
def endCapture (name : String) (ex : ExecSt) : Option ExecSt :=
  match extractFirst (fun a => a.name == name) ex.activeCaptures with
  | none => none
  | some (a, rest) =>
    some { ex with
      captures := ex.captures ++
        [{ name := a.name, startPosition := a.startPosition,
           endPosition := ex.inputPos, value := a.buffer }],
      activeCaptures := rest }

/-- Runs one capture command of a callback. -/
def applyCmd (c : CapCmd) (ex : ExecSt) : Option ExecSt :=
  match c with
  | CapCmd.beginCap n => beginCapture n ex
  | CapCmd.endCap n => endCapture n ex

/-- Runs a callback body (its capture commands in order). -/
def applyCmds : Callback → ExecSt → Option ExecSt
  | [], ex => some ex
  | c :: cs, ex => (applyCmd c ex).bind (applyCmds cs)

/-- Fires an optional callback. -/
def applyCallback (cb : Option Callback) (ex : ExecSt) : Option ExecSt :=
  match cb with
  | none => some ex
  | some cmds => applyCmds cmds ex

/-- `FSM::recordCharInCaptures`: appends the byte to every active capture
buffer. -/
def recordCharInCaptures (ch : Byte) (ex : ExecSt) : ExecSt :=
  { ex with activeCaptures :=
      ex.activeCaptures.map (fun a => { a with buffer := a.buffer ++ [ch] }) }

/-- `characters_processed` increment, guarded by `COLLECT_METRICS`. -/
def bumpChars (ex : ExecSt) : ExecSt :=
  if ex.debug.collectMetrics then
    { ex with metrics := { ex.metrics with
        charactersProcessed := ex.metrics.charactersProcessed + 1 } }
  else ex

/-! ## Shared transition-taking step

`FSM::processCharImpl` (greedy/streaming) and the main loop of
`FSM::validateWithBacktracking` perform the identical sequence on the chosen
transition: fire `exit(from)` when the state changes, fire the transition
callback, move `current`, fire `entry(to)` when the state changes, update the
`transitions_taken`/`states_visited` metrics and append a trace entry.  The
source duplicates this block; the model shares it. -/

/-- The `transitions_taken`/`states_visited` update, guarded by
`COLLECT_METRICS`. -/
def tickTransitionMetrics (changed : Bool) (ex : ExecSt) : ExecSt :=
  if ex.debug.collectMetrics then
    { ex with metrics := { ex.metrics with
        transitionsTaken := ex.metrics.transitionsTaken + 1,
        statesVisited := ex.metrics.statesVisited + (if changed then 1 else 0) } }
  else ex

/-- The `epsilon_transitions` update, guarded by `COLLECT_METRICS`. -/
def tickEpsilonMetrics (ex : ExecSt) : ExecSt :=
  if ex.debug.collectMetrics then
    { ex with metrics := { ex.metrics with
        epsilonTransitions := ex.metrics.epsilonTransitions + 1 } }
  else ex

/-- The trace append, guarded by `TRACE_TRANSITIONS`. -/
def pushTraceEntry (old nw : Nat) (ch : Byte) (tid : Nat) (ex : ExecSt) : ExecSt :=
  if ex.debug.traceTransitions then
    { ex with trace := ex.trace ++
        [{ step := ex.trace.length, fromState := old, toState := nw,
           inputChar := ch, transitionId := tid }] }
  else ex

/-- Callback/metrics/trace steps common to taking a CLASS transition. -/
def takeTransition (m : FSM) (ex : ExecSt) (t : Transition) (ch : Byte) : Option ExecSt :=
  let old := ex.current
  let nw := t.dst
  let changed : Bool := old != nw
  ((if changed then applyCallback (exitCbOf m old) ex else some ex).bind fun ex =>
   (applyCallback t.onTransition ex).bind fun ex =>
   let ex := { ex with current := nw }
   (if changed then applyCallback (entryCbOf m nw) ex else some ex).map fun ex =>
   pushTraceEntry old nw ch t.id (tickTransitionMetrics changed ex))

/-- The transition chosen by the greedy executor: the first element of the
priority-sorted outgoing list that is a CLASS edge admitting the byte
(the scan loop of `FSM::processCharImpl`). -/
def pickTransition (m : FSM) (s : Nat) (ch : Byte) : Option Transition :=
  (getTransitionsFrom m s).find?
    (fun t => t.type == TransitionType.ABNF_RULE && t.matchesByte ch)

/-- `FSM::processCharImpl`: consume one byte greedily.  Returns the updated
state and `false` (with `last_error_` set to `NO_MATCHING_TRANSITION` at the
position, byte and current state) when no CLASS transition admits the
byte. -/
def processCharImpl (m : FSM) (ex : ExecSt) (ch : Byte) (position : Nat) :
    Option (ExecSt × Bool) :=
  match pickTransition m ex.current ch with
  | none =>
    let e : VError := ⟨ErrorType.NO_MATCHING_TRANSITION, position, ch, ex.current⟩
    some ({ ex with lastError := some e }, false)
  | some t => (takeTransition m ex t ch).map (fun ex => (ex, true))

/-! ## Epsilon closure (`FSM::processEpsilonTransitions`)

The C++ loop restarts the scan after each taken epsilon edge; every taken
edge inserts a previously unvisited target into `epsilon_visited`, and every
inserted state is the target of some transition, so the loop runs at most
`transitions_.size()` iterations.  The model therefore uses
`m.transitions.length + 1` fuel, which can never be exhausted.  The
`position` argument of the C++ function only feeds callback contexts and
debug output, neither of which is modelled. -/

/-- One-restart-per-edge epsilon loop with an explicit visited list. -/
def epsLoop (m : FSM) : Nat → List Nat → ExecSt → Option ExecSt
  | 0, _, ex => some ex
  | fuel + 1, visited, ex =>
    match (getTransitionsFrom m ex.current).find?
        (fun t => t.type == TransitionType.EPSILON && !(visited.contains t.dst)) with
    | none => some ex
    | some t =>
      let old := ex.current
      ((applyCallback (exitCbOf m old) ex).bind fun ex =>
       (applyCallback t.onTransition ex).bind fun ex =>
       let ex := { ex with current := t.dst }
       (applyCallback (entryCbOf m t.dst) ex).bind fun ex =>
       epsLoop m fuel (t.dst :: visited)
         (pushTraceEntry old t.dst 0 t.id (tickEpsilonMetrics ex)))

/-- `FSM::processEpsilonTransitions`: follow epsilon edges from the current
state until no further progress is possible. -/
def processEpsilonTransitions (m : FSM) (ex : ExecSt) : Option ExecSt :=
  epsLoop m (m.transitions.length + 1) [ex.current] ex

/-! ## Reset and streaming -/

/-- `FSM::reset`: current state back to start; error cleared; trace cleared
only under a tracing flag; metrics reset only under `COLLECT_METRICS`; input
position cleared; stream status back to `READY`; choice stack emptied and
backtracking statistics zeroed.  Captures are *not* cleared here (they are
cleared by `validate`/`validateWithBacktracking` via `clearCaptures`). -/
def FSM.reset (m : FSM) (ms : MachSt) : MachSt :=
  let ex := ms.exec
  let ex := { ex with current := m.startState, lastError := none }
  let ex := if ex.debug.traceTransitions || ex.debug.traceStateChanges then
      { ex with trace := [] }
    else ex
  let ex := if ex.debug.collectMetrics then { ex with metrics := {} } else ex
  let ex := { ex with inputPos := 0 }
  { exec := ex, streamState := StreamState.READY, streamingMode := false,
    choiceStack := [], btStats := {} }

/-- `FSM::resetStream`: stream status back to `READY`, streaming mode off;
nothing else changes. -/
def resetStream (ms : MachSt) : MachSt :=
  { ms with streamState := StreamState.READY, streamingMode := false }

/-- `FSM::setDebugConfig`. -/
def setDebugConfig (dbg : DebugConfig) (ms : MachSt) : MachSt :=
  { ms with exec := { ms.exec with debug := dbg } }

/-! ## Greedy one-shot validation (`FSM::validate`) -/

/-- The per-byte loop of `FSM::validate`: `rest` is the unread input,
`i` the current 0-based position.  After the last byte the epsilon closure
runs once and acceptance is decided by `isInAcceptState`. -/
def validateGo (m : FSM) (ex : ExecSt) : List Byte → Nat → Option (ExecSt × Bool)
  | [], i =>
    let ex := { ex with inputPos := i }
    match processEpsilonTransitions m ex with
    | none => none
    | some ex =>
      if isAcceptState m ex.current then some (ex, true)
      else
        let e : VError := ⟨ErrorType.NOT_IN_ACCEPT_STATE, i, 0, ex.current⟩
        some ({ ex with lastError := some e }, false)
  | ch :: rest, i =>
    let ex := { ex with inputPos := i }
    match processCharImpl m ex ch i with
    | none => none
    | some (ex, false) => some (ex, false)
    | some (ex, true) =>
      let ex := bumpChars ex
      let ex := recordCharInCaptures ch ex
      validateGo m ex rest (i + 1)

/-- `FSM::validate`: reset, clear error and captures, fail with
`NO_START_STATE` on an invalid start id, else run the greedy loop. -/
def validate (m : FSM) (ms : MachSt) (input : List Byte) : Option (MachSt × Bool) :=
  let ms := m.reset ms
  let ex := { ms.exec with
    lastError := none
    captures := []
    activeCaptures := []
    inputPos := 0 }
  if m.startState = 0 then
    let e : VError := ⟨ErrorType.NO_START_STATE, 0, 0, ex.current⟩
    some ({ ms with exec := { ex with lastError := some e } }, false)
  else
    (validateGo m ex input 0).map (fun p => ({ ms with exec := p.1 }, p.2))

/-- `FSM::isInAcceptState` on a machine state. -/
def isInAcceptState (m : FSM) (ms : MachSt) : Bool :=
  isAcceptState m ms.exec.current

/-- The per-byte work of `FSM::feed` once streaming mode is on: the same
work as one greedy iteration, then the stream state becomes `COMPLETE` when
in an accept state, `WAITING_FOR_INPUT` otherwise, or `ERROR` on a predicate
miss. -/
def feedBody (m : FSM) (ms : MachSt) (ch : Byte) : Option MachSt :=
  match processCharImpl m ms.exec ch ms.exec.inputPos with
  | none => none
  | some (ex, false) => some { ms with exec := ex, streamState := StreamState.ERROR }
  | some (ex, true) =>
    let ex := bumpChars ex
    let ex := recordCharInCaptures ch ex
    let ex := { ex with inputPos := ex.inputPos + 1 }
    let ss := if isAcceptState m ex.current then StreamState.COMPLETE
              else StreamState.WAITING_FOR_INPUT
    some { ms with exec := ex, streamState := ss }

/-- `FSM::feed(char)`: the first call switches streaming mode on (checking
the start state), every call then performs one greedy iteration.  Note that
the current stream state is never consulted. -/
def feed (m : FSM) (ms : MachSt) (ch : Byte) : Option MachSt :=
  if ms.streamingMode = false then
    let ms := { ms with streamingMode := true, streamState := StreamState.PROCESSING }
    if m.startState = 0 then
      let e : VError := ⟨ErrorType.NO_START_STATE, ms.exec.inputPos, ch, ms.exec.current⟩
      some { ms with
        exec := { ms.exec with lastError := some e }
        streamState := StreamState.ERROR }
    else feedBody m ms ch
  else feedBody m ms ch

/-- `FSM::feed(chunk)`: feeds each byte, stopping early when a call returns
`ERROR`. -/
def feedChunk (m : FSM) (ms : MachSt) : List Byte → Option MachSt
  | [] => some ms
  | ch :: rest =>
    (feed m ms ch).bind fun ms =>
      if ms.streamState = StreamState.ERROR then some ms else feedChunk m ms rest

/-- The claimed streaming protocol `feed(x[0]) … feed(x[n-1])`: one `feed`
call per byte, unconditionally. -/
def feedList (m : FSM) (ms : MachSt) : List Byte → Option MachSt
  | [] => some ms
  | ch :: rest => (feed m ms ch).bind fun ms => feedList m ms rest

/-- `FSM::endOfStream`: before any feed, `UNEXPECTED_END_OF_INPUT`;
otherwise run the epsilon closure once and return `COMPLETE` when in an
accept state, else `ERROR` with `NOT_IN_ACCEPT_STATE`. -/
def endOfStream (m : FSM) (ms : MachSt) : Option MachSt :=
  if ms.streamingMode = false then
    let e : VError := ⟨ErrorType.UNEXPECTED_END_OF_INPUT, 0, 0, ms.exec.current⟩
    some { ms with
      exec := { ms.exec with lastError := some e }
      streamState := StreamState.ERROR }
  else
    match processEpsilonTransitions m ms.exec with
    | none => none
    | some ex =>
      if isAcceptState m ex.current then
        some { ms with exec := ex, streamState := StreamState.COMPLETE }
      else
        let e : VError := ⟨ErrorType.NOT_IN_ACCEPT_STATE, ex.inputPos, 0, ex.current⟩
        some { ms with
          exec := { ex with lastError := some e }
          streamState := StreamState.ERROR }

/-- The streaming run of claim C1: a freshly reset machine, one `feed` per
byte, then `endOfStream`. -/
def streamRun (m : FSM) (ms : MachSt) (input : List Byte) : Option MachSt :=
  (feedList m (m.reset ms) input).bind (endOfStream m)

/-! ## Backtracking executor (`FSM::validateWithBacktracking`)

Result encoding: the outer `Option` is recursion fuel (`none` can only occur
when the supplied fuel underestimates the finite search, every claim below
supplies enough); the inner `Option` is a callback exception as in the rest
of the model; `some (some (ms, b))` is a normal return of `b`.

The source re-enters `validateWithBacktracking` on the remaining input when
resuming from a post-input choice point, temporarily setting `start_state_`
to the choice target; the model passes the modified graph to the recursive
call.  The inner call begins with `reset`, so it clears the outer choice
stack, statistics and captures, exactly as the source does on the shared
object. -/

/-- `FSM::getValidTransitions`: all CLASS transitions from the current state
admitting the byte, in priority order. -/
def getValidTransitions (m : FSM) (s : Nat) (ch : Byte) : List Transition :=
  (getTransitionsFrom m s).filter
    (fun t => t.type == TransitionType.ABNF_RULE && t.matchesByte ch)

/-- `FSM::shouldCreateChoicePoint`, structured exactly as the source: a
single valid transition returns `false` before the choice-point flag is ever
consulted. -/
def shouldCreateChoicePoint (m : FSM) (ex : ExecSt) (valid : List Transition) : Bool :=
  if valid.length ≤ 1 then false
  else if isChoicePointOf m ex.current then true
  else valid.length > 1

/-- `FSM::saveChoicePoint`: pushes a snapshot unless `max_backtrack_depth_`
(0 = unbounded) is reached; updates `choice_points_created` and
`max_stack_depth`. -/
def saveChoicePoint (m : FSM) (ex : ExecSt) (stack : List ChoicePoint)
    (stats : BtStats) (alternatives : List Transition) (position : Nat) :
    List ChoicePoint × BtStats :=
  if m.maxBacktrackDepth > 0 ∧ m.maxBacktrackDepth ≤ stack.length then (stack, stats)
  else
    let stack := ChoicePoint.mk ex.current position alternatives
      ex.captures ex.activeCaptures ex.inputPos :: stack
    (stack, { stats with
      choicePointsCreated := stats.choicePointsCreated + 1
      maxStackDepth := max stats.maxStackDepth stack.length })

/-- `FSM::restoreFromChoicePoint`: restores current state, captures, active
captures and input position from the snapshot. -/
def restoreFromChoicePoint (ex : ExecSt) (cp : ChoicePoint) : ExecSt :=
  { ex with
    current := cp.state
    captures := cp.capturesSnapshot
    activeCaptures := cp.activeCapturesSnapshot
    inputPos := cp.inputPositionSnapshot }

/-- `FSM::backtrack`: pops exhausted choice points; on the first one with
remaining alternatives, restores its snapshot and counts the backtrack. -/
def backtrack (ex : ExecSt) (stack : List ChoicePoint) (stats : BtStats) :
    Option (ExecSt × List ChoicePoint × BtStats) :=
  match stack with
  | [] => none
  | cp :: rest =>
    if cp.remaining.isEmpty then backtrack ex rest stats
    else some (restoreFromChoicePoint ex cp, cp :: rest,
      { stats with backtracksPerformed := stats.backtracksPerformed + 1 })

/-- Assembles the returned machine state of the backtracking executor; the
stream fields keep the values `reset` gave them. -/
def mkBtMach (ex : ExecSt) (stack : List ChoicePoint) (stats : BtStats) : MachSt :=
  { exec := ex, streamState := StreamState.READY, streamingMode := false,
    choiceStack := stack, btStats := stats }

mutual

/-- `FSM::validateWithBacktracking`: reset (clearing stack and statistics),
clear captures, reject an invalid start id, then run the search loop. -/
def validateWithBacktracking (m : FSM) (ms : MachSt) (input : List Byte) :
    Nat → Option (Option (MachSt × Bool))
  | 0 => none
  | fuel + 1 =>
    let ms := m.reset ms
    let ex := { ms.exec with
      lastError := none
      captures := []
      activeCaptures := []
      inputPos := 0 }
    if m.startState = 0 then
      let e : VError := ⟨ErrorType.NO_START_STATE, 0, 0, ex.current⟩
      some (some ({ ms with exec := { ex with lastError := some e } }, false))
    else vwbLoop m input ex [] {} 0 fuel

/-- The position-indexed main loop of `FSM::validateWithBacktracking`. -/
def vwbLoop (m : FSM) (input : List Byte) (ex : ExecSt) (stack : List ChoicePoint)
    (stats : BtStats) (position : Nat) :
    Nat → Option (Option (MachSt × Bool))
  | 0 => none
  | fuel + 1 =>
    if h : position < input.length then
      let ch := input.get ⟨position, h⟩
      let ex := { ex with inputPos := position }
      let valid := getValidTransitions m ex.current ch
      match valid with
      | [] =>
        -- a failed `backtrack()` has popped the entire stack; a successful
        -- one guarantees a top with remaining alternatives, so the two
        -- lower `failNow` arms are unreachable mirrors of the fall-through
        let failNow (ex : ExecSt) (stack : List ChoicePoint) (stats : BtStats) :
            Option (Option (MachSt × Bool)) :=
          let e : VError := ⟨ErrorType.NO_MATCHING_TRANSITION, position, ch, ex.current⟩
          some (some (mkBtMach { ex with lastError := some e } stack stats, false))
        match backtrack ex stack stats with
        | none => failNow ex [] stats
        | some (ex, stack, stats) =>
          match stack with
          | [] => failNow ex stack stats
          | cp :: stackRest =>
            match cp.remaining with
            | [] => failNow ex stack stats
            | next :: remRest =>
              let stack := { cp with remaining := remRest } :: stackRest
              let ex := { ex with current := next.dst }
              let stats := { stats with pathsExplored := stats.pathsExplored + 1 }
              -- source slip: `ch` is the byte at the *failing* position, not
              -- at the resumed choice-point position (claim C3)
              let ex := recordCharInCaptures ch ex
              let newPos := cp.position + 1
              let ex := { ex with inputPos := newPos }
              let ex := bumpChars ex
              vwbLoop m input ex stack stats newPos fuel
      | t :: _ =>
        let (stack, stats) :=
          if shouldCreateChoicePoint m ex valid then
            saveChoicePoint m ex stack stats valid.tail position
          else (stack, stats)
        let stats := { stats with pathsExplored := stats.pathsExplored + 1 }
        match takeTransition m ex t ch with
        | none => some none
        | some ex =>
          let ex := recordCharInCaptures ch ex
          let ex := { ex with inputPos := ex.inputPos + 1 }
          let ex := bumpChars ex
          vwbLoop m input ex stack stats (position + 1) fuel
    else
      let ex := { ex with inputPos := input.length }
      match processEpsilonTransitions m ex with
      | none => some none
      | some ex =>
        if isAcceptState m ex.current then some (some (mkBtMach ex stack stats, true))
        else vwbEnd m input ex stack stats fuel

/-- The post-input `while (backtrack())` loop of
`FSM::validateWithBacktracking`: takes a surviving alternative, and when
input remains past the choice point re-enters the whole validator on that
remaining input with the alternative target as temporary start state. -/
def vwbEnd (m : FSM) (input : List Byte) (ex : ExecSt) (stack : List ChoicePoint)
    (stats : BtStats) : Nat → Option (Option (MachSt × Bool))
  | 0 => none
  | fuel + 1 =>
    match backtrack ex stack stats with
    | none =>
      let e : VError := ⟨ErrorType.NOT_IN_ACCEPT_STATE, input.length, 0, ex.current⟩
      some (some (mkBtMach { ex with lastError := some e } [] stats, false))
    | some (ex, stack, stats) =>
      match stack with
      | [] =>
        let e : VError := ⟨ErrorType.NOT_IN_ACCEPT_STATE, input.length, 0, ex.current⟩
        some (some (mkBtMach { ex with lastError := some e } [] stats, false))
      | cp :: stackRest =>
        match cp.remaining with
        | [] => vwbEnd m input ex stackRest stats fuel
        | next :: remRest =>
          let stack := { cp with remaining := remRest } :: stackRest
          let stats := { stats with pathsExplored := stats.pathsExplored + 1 }
          let ex := { ex with current := next.dst }
          let resumePos := cp.position + 1
          if resumePos ≥ input.length then
            match processEpsilonTransitions m ex with
            | none => some none
            | some ex =>
              if isAcceptState m ex.current then
                some (some (mkBtMach ex stack stats, true))
              else vwbEnd m input ex stack stats fuel
          else
            match validateWithBacktracking { m with startState := ex.current }
                (mkBtMach ex stack stats) (input.drop resumePos) fuel with
            | none => none
            | some none => some none
            | some (some (ms2, true)) => some (some (ms2, true))
            | some (some (ms2, false)) =>
              vwbEnd m input ms2.exec ms2.choiceStack ms2.btStats fuel

end

/-! ## Reference semantics used to settle the claims

`greedyRefEndClosure` is the plain state-level semantics the code implements
(first matching CLASS edge per byte, one closure after the last byte);
`validatePerByteClosure` is modelled from the spec sentence of claim C2
("after consuming each input byte, and once more at end of input, the
executor follows epsilon edges…") for comparison with the code. -/

/-- State reached by consuming one byte: target of the chosen transition. -/
def stepByteRef (m : FSM) (s : Nat) (ch : Byte) : Option Nat :=
  (pickTransition m s ch).map (fun t => t.dst)

/-- The epsilon closure at the state level (same scan and visited-set shape
as `epsLoop`, without the callback/trace/metrics plumbing). -/
def closureRefGo (m : FSM) : Nat → List Nat → Nat → Nat
  | 0, _, s => s
  | fuel + 1, visited, s =>
    match (getTransitionsFrom m s).find?
        (fun t => t.type == TransitionType.EPSILON && !(visited.contains t.dst)) with
    | none => s
    | some t => closureRefGo m fuel (t.dst :: visited) t.dst

/-- State-level epsilon closure. -/
def closureRef (m : FSM) (s : Nat) : Nat :=
  closureRefGo m (m.transitions.length + 1) [s] s

/-- Greedy consumption of a byte list with no epsilon processing between
bytes. -/
def consumeAll (m : FSM) : Nat → List Byte → Option Nat
  | s, [] => some s
  | s, ch :: rest => (stepByteRef m s ch).bind (fun s => consumeAll m s rest)

/-- Reference acceptance of the greedy executor: consume every byte (no
epsilon steps in between), run the closure once at end of input, then test
the accept set. -/
def greedyRefEndClosure (m : FSM) (input : List Byte) : Bool :=
  if m.startState = 0 then false
  else
    match consumeAll m m.startState input with
    | none => false
    | some s => isAcceptState m (closureRef m s)

/-- Modelled from the spec: the executor claim C2 describes — an epsilon
closure after *every* consumed byte and once more at end of input.  Used
only to exhibit that the code does not implement this semantics. -/
def perByteRefGo (m : FSM) : Nat → List Byte → Option Nat
  | s, [] => some s
  | s, ch :: rest =>
    (stepByteRef m s ch).bind (fun s => perByteRefGo m (closureRef m s) rest)

/-- Modelled from the spec: acceptance under the per-byte-closure semantics
claimed in C2. -/
def validatePerByteClosure (m : FSM) (input : List Byte) : Bool :=
  if m.startState = 0 then false
  else
    match perByteRefGo m m.startState input with
    | none => false
    | some s => isAcceptState m (closureRef m s)

/-- Rewrites every state's `type` tag (claim C10: the executors never
consult it). -/
def retypeStates (f : Nat → StateType) (m : FSM) : FSM :=
  { m with states := m.states.map (fun s => { s with type := f s.id }) }

/-! ## Concrete machines for witnesses and counterexamples -/

/-- Byte literals for the examples. -/
def bA : Byte := 97

/-- Byte literal for the character b. -/
def bB : Byte := 98

/-- Byte literal for the character c. -/
def bC : Byte := 99

/-- Byte literal for the digit 5. -/
def b5 : Byte := 53

/-- Machine: state 1 —DIGIT→ state 2 (accept). -/
def mDigit : FSM :=
  { states := [{ id := 1, type := StateType.START }, { id := 2, type := StateType.ACCEPT }]
    transitions := [{ id := 1, src := 1, dst := 2,
                      type := TransitionType.ABNF_RULE, rule := some ABNF.digit }]
    startState := 1
    acceptStates := [2] }

/-- Machine: state 1 —a→ state 2 (accept). -/
def mA : FSM :=
  { states := [{ id := 1, type := StateType.START }, { id := 2, type := StateType.ACCEPT }]
    transitions := [{ id := 1, src := 1, dst := 2,
                      type := TransitionType.ABNF_RULE, rule := some (ABNF.literal bA) }]
    startState := 1
    acceptStates := [2] }

/-- Machine whose start state is accepting and which has no transitions:
accepts exactly the empty input. -/
def mEmptyOk : FSM :=
  { states := [{ id := 1, type := StateType.START }]
    transitions := []
    startState := 1
    acceptStates := [1] }

/-- Degenerate machine constructible through `InitialConfig`: start id 0
(invalid) but with a transition out of id 0. -/
def mZeroStart : FSM :=
  { states := [{ id := 2, type := StateType.ACCEPT }]
    transitions := [{ id := 1, src := 0, dst := 2,
                      type := TransitionType.ABNF_RULE, rule := some (ABNF.literal bA) }]
    startState := 0
    acceptStates := [2] }

/-- Machine for C2: 1 —a→ 2, 2 —ε→ 3, 3 —b→ 4 (accept).  Under per-byte
closure it accepts "ab"; the code rejects it. -/
def mEps : FSM :=
  { states := [{ id := 1, type := StateType.START }, { id := 2, type := StateType.NORMAL },
               { id := 3, type := StateType.NORMAL }, { id := 4, type := StateType.ACCEPT }]
    transitions :=
      [{ id := 1, src := 1, dst := 2,
         type := TransitionType.ABNF_RULE, rule := some (ABNF.literal bA) },
       { id := 2, src := 2, dst := 3, type := TransitionType.EPSILON },
       { id := 3, src := 3, dst := 4,
         type := TransitionType.ABNF_RULE, rule := some (ABNF.literal bB) }]
    startState := 1
    acceptStates := [4] }

/-- Machine for C3: 1 —a→ 2 (beginning capture x), then from 2 two edges on
b — high priority to 3 (dead end) and normal priority to 4 — and 4 —c→ 5
(accept).  On "abc" the backtracking validator must restore at position 1
and re-consume the byte b. -/
def mCap : FSM :=
  { states := [{ id := 1, type := StateType.START }, { id := 2, type := StateType.NORMAL },
               { id := 3, type := StateType.NORMAL }, { id := 4, type := StateType.NORMAL },
               { id := 5, type := StateType.ACCEPT }]
    transitions :=
      [{ id := 1, src := 1, dst := 2, type := TransitionType.ABNF_RULE,
         rule := some (ABNF.literal bA),
         onTransition := some [CapCmd.beginCap "x"] },
       { id := 2, src := 2, dst := 3, type := TransitionType.ABNF_RULE,
         rule := some (ABNF.literal bB), priority := 75 },
       { id := 3, src := 2, dst := 4, type := TransitionType.ABNF_RULE,
         rule := some (ABNF.literal bB) },
       { id := 4, src := 4, dst := 5, type := TransitionType.ABNF_RULE,
         rule := some (ABNF.literal bC) }]
    startState := 1
    acceptStates := [5] }

/-- Machine for C6: state 1 is flagged as a choice point but has a single
outgoing edge on a. -/
def mFlag : FSM :=
  { states := [{ id := 1, type := StateType.START, isChoicePoint := true },
               { id := 2, type := StateType.ACCEPT }]
    transitions := [{ id := 1, src := 1, dst := 2,
                      type := TransitionType.ABNF_RULE, rule := some (ABNF.literal bA) }]
    startState := 1
    acceptStates := [2] }

/-- The all-off debug configuration (release default). -/
def dbg0 : DebugConfig := {}

/-- A configuration with metrics collection on. -/
def dbgM : DebugConfig := { collectMetrics := true }

/-- First-inserted of two equal-priority edges on byte a (for C4): 1 —a→ 2. -/
def tTie1 : Transition :=
  { id := 1, src := 1, dst := 2, type := TransitionType.ABNF_RULE,
    rule := some (ABNF.literal bA) }

/-- Second-inserted equal-priority edge on byte a (for C4): 1 —a→ 3. -/
def tTie2 : Transition :=
  { id := 2, src := 1, dst := 3, type := TransitionType.ABNF_RULE,
    rule := some (ABNF.literal bA) }

/-- Machine whose state 1 has two equal-priority CLASS edges admitting the
same byte: the per-state index order between them is whatever `std::sort`
produced. -/
def mTie : FSM :=
  { states := [{ id := 1, type := StateType.START },
               { id := 2, type := StateType.ACCEPT },
               { id := 3, type := StateType.NORMAL }]
    transitions := [tTie1, tTie2]
    startState := 1
    acceptStates := [2] }

/-! ## Result projections

`MachSt` contains `ChoicePoint`s, which carry `ABNF` predicates (functions),
so whole-state equality is not decidable; the closed counterexample
statements below project out the decidable components they speak about. -/

/-- Outcome and error kind of a `validate` result. -/
def valOutcome (r : Option (MachSt × Bool)) : Option (Bool × Option ErrorType) :=
  r.map (fun p => (p.2, p.1.exec.lastError.map (fun e => e.etype)))

/-- Stream state, current state and input position of a streaming result. -/
def streamOutcome (r : Option MachSt) : Option (StreamState × Nat × Nat) :=
  r.map (fun ms => (ms.streamState, ms.exec.current, ms.exec.inputPos))

/-- Outcome, active captures and statistics of a backtracking result. -/
def btOutcome (r : Option (Option (MachSt × Bool))) :
    Option (Option (Bool × List ActiveCapture × BtStats)) :=
  r.map (fun r => r.map (fun p => (p.2, p.1.exec.activeCaptures, p.1.btStats)))

/-- The error kind recorded in an executor state, if any. -/
def errKind (ex : ExecSt) : Option ErrorType :=
  ex.lastError.map (fun e => e.etype)

/-! # Lemmas -/

/-! ## Ordering of the transition index -/

/-- Sorted by priority descending. -/
def PrioSorted (l : List Transition) : Prop :=
  l.Pairwise (fun a b => b.priority ≤ a.priority)

/-- The contract the source establishes for a per-state transition index:
`std::sort` (unstable) leaves `trans_list` *some* permutation of the
outgoing transitions that is sorted by priority descending; the relative
order of equal priorities is unspecified. -/
def PrioPerm (outgoing idx : List Transition) : Prop :=
  idx.Perm outgoing ∧ PrioSorted idx

theorem mem_insertPrio {x t : Transition} {l : List Transition} :
    x ∈ insertPrio t l ↔ x = t ∨ x ∈ l := by
  induction l with
  | nil => simp [insertPrio]
  | cons u us ih =>
    by_cases h : t.priority ≤ u.priority <;> simp [insertPrio, h, ih] <;> tauto

theorem insertPrio_pairwise {t : Transition} {l : List Transition}
    (h : PrioSorted l) : PrioSorted (insertPrio t l) := by
  induction l with
  | nil => simp [insertPrio, PrioSorted]
  | cons u us ih =>
    rw [PrioSorted, List.pairwise_cons] at h
    by_cases hp : t.priority ≤ u.priority
    · rw [insertPrio, if_pos hp]
      rw [PrioSorted, List.pairwise_cons]
      refine ⟨?_, ih h.2⟩
      intro x hx
      rcases mem_insertPrio.mp hx with rfl | hx
      · exact hp
      · exact h.1 x hx
    · rw [insertPrio, if_neg hp]
      rw [PrioSorted, List.pairwise_cons]
      push_neg at hp
      refine ⟨?_, List.pairwise_cons.mpr h⟩
      intro x hx
      rcases List.mem_cons.mp hx with rfl | hx
      · exact le_of_lt hp
      · exact le_trans (h.1 x hx) (le_of_lt hp)

theorem insertPrio_of_lt {t : Transition} {l : List Transition}
    (h : ∀ x ∈ l, x.priority < t.priority) : insertPrio t l = t :: l := by
  cases l with
  | nil => rfl
  | cons u us =>
    rw [insertPrio, if_neg]
    exact not_le_of_lt (h u (List.mem_cons_self u us))

theorem filter_insertPrio (p : Transition → Bool) {t : Transition}
    {l : List Transition} (h : PrioSorted l) :
    (insertPrio t l).filter p =
      if p t then insertPrio t (l.filter p) else l.filter p := by
  induction l with
  | nil => by_cases hp : p t <;> simp [insertPrio, hp]
  | cons u us ih =>
    rw [PrioSorted, List.pairwise_cons] at h
    by_cases hpr : t.priority ≤ u.priority
    · rw [insertPrio, if_pos hpr]
      by_cases hu : p u
      · rw [List.filter_cons_of_pos hu, ih h.2, List.filter_cons_of_pos hu]
        by_cases ht : p t
        · rw [if_pos ht, if_pos ht, insertPrio, if_pos hpr]
        · rw [if_neg ht, if_neg ht]
      · rw [List.filter_cons_of_neg hu, ih h.2, List.filter_cons_of_neg hu]
    · push_neg at hpr
      rw [insertPrio, if_neg (not_le_of_lt hpr)]
      by_cases ht : p t
      · rw [List.filter_cons_of_pos ht, if_pos ht]
        rw [insertPrio_of_lt]
        intro x hx
        have hx2 := List.mem_of_mem_filter hx
        rcases List.mem_cons.mp hx2 with rfl | hx2
        · exact hpr
        · exact lt_of_le_of_lt (h.1 x hx2) hpr
      · rw [List.filter_cons_of_neg ht, if_neg ht]

theorem foldl_insertPrio_sorted (l : List Transition) :
    ∀ acc, PrioSorted acc →
      PrioSorted (l.foldl (fun acc t => insertPrio t acc) acc) := by
  induction l with
  | nil => intro acc h; simpa using h
  | cons t rest ih =>
    intro acc h
    simpa using ih (insertPrio t acc) (insertPrio_pairwise h)

theorem sortByPriority_sorted (l : List Transition) : PrioSorted (sortByPriority l) :=
  foldl_insertPrio_sorted l [] (by simp [PrioSorted])

theorem foldl_insertPrio_filter (p : Transition → Bool) (l : List Transition) :
    ∀ acc, PrioSorted acc →
      (l.foldl (fun acc t => insertPrio t acc) acc).filter p =
        (l.filter p).foldl (fun acc t => insertPrio t acc) (acc.filter p) := by
  induction l with
  | nil => intro acc _; rfl
  | cons t rest ih =>
    intro acc h
    by_cases ht : p t
    · simp only [List.foldl_cons, List.filter_cons_of_pos ht]
      rw [ih (insertPrio t acc) (insertPrio_pairwise h), filter_insertPrio p h,
        if_pos ht]
    · simp only [List.foldl_cons, List.filter_cons_of_neg ht]
      rw [ih (insertPrio t acc) (insertPrio_pairwise h), filter_insertPrio p h,
        if_neg ht]

theorem filter_sortByPriority (p : Transition → Bool) (l : List Transition) :
    (sortByPriority l).filter p = sortByPriority (l.filter p) := by
  rw [sortByPriority, foldl_insertPrio_filter p l [] (by simp [PrioSorted])]
  rfl

theorem find?_eq_head?_filter {α : Type} (p : α → Bool) (l : List α) :
    l.find? p = (l.filter p).head? := by
  induction l with
  | nil => rfl
  | cons a l ih =>
    by_cases h : p a
    · rw [List.find?_cons_of_pos _ h, List.filter_cons_of_pos h, List.head?_cons]
    · rw [List.find?_cons_of_neg _ h, List.filter_cons_of_neg h, ih]

/-- The greedy pick is the head of the valid-alternatives list computed by
the backtracking executor. -/
theorem pickTransition_eq_head_valid (m : FSM) (s : Nat) (ch : Byte) :
    pickTransition m s ch = (getValidTransitions m s ch).head? := by
  rw [pickTransition, getValidTransitions, find?_eq_head?_filter]

/-! ## Field preservation of the executor steps -/

/-- The capture API touches only the two capture lists. -/
def OnlyCaps (ex ex2 : ExecSt) : Prop :=
  ex2 = { ex with captures := ex2.captures, activeCaptures := ex2.activeCaptures }

theorem OnlyCaps.rfl {ex : ExecSt} : OnlyCaps ex ex := by
  cases ex; simp [OnlyCaps]

theorem OnlyCaps.trans {ex ex2 ex3 : ExecSt}
    (h1 : OnlyCaps ex ex2) (h2 : OnlyCaps ex2 ex3) : OnlyCaps ex ex3 := by
  cases ex; cases ex2; cases ex3
  simp_all [OnlyCaps]

theorem beginCapture_onlyCaps {n : String} {ex ex2 : ExecSt}
    (h : beginCapture n ex = some ex2) : OnlyCaps ex ex2 := by
  rw [beginCapture] at h
  split at h
  · exact absurd h (by simp)
  · cases ex; simp only [Option.some.injEq] at h; subst h; simp [OnlyCaps]

theorem endCapture_onlyCaps {n : String} {ex ex2 : ExecSt}
    (h : endCapture n ex = some ex2) : OnlyCaps ex ex2 := by
  rw [endCapture] at h
  split at h
  · exact absurd h (by simp)
  · cases ex; simp only [Option.some.injEq] at h; subst h; simp [OnlyCaps]

theorem applyCmd_onlyCaps {c : CapCmd} {ex ex2 : ExecSt}
    (h : applyCmd c ex = some ex2) : OnlyCaps ex ex2 := by
  cases c with
  | beginCap n => exact beginCapture_onlyCaps h
  | endCap n => exact endCapture_onlyCaps h

theorem applyCmds_onlyCaps {cs : Callback} :
    ∀ {ex ex2 : ExecSt}, applyCmds cs ex = some ex2 → OnlyCaps ex ex2 := by
  induction cs with
  | nil => intro ex ex2 h; rw [applyCmds] at h; cases h; exact OnlyCaps.rfl
  | cons c cs ih =>
    intro ex ex2 h
    rw [applyCmds] at h
    cases h1 : applyCmd c ex with
    | none => rw [h1] at h; exact absurd h (by simp)
    | some ex1 =>
      rw [h1] at h
      exact (applyCmd_onlyCaps h1).trans (ih h)

theorem applyCallback_onlyCaps {cb : Option Callback} {ex ex2 : ExecSt}
    (h : applyCallback cb ex = some ex2) : OnlyCaps ex ex2 := by
  cases cb with
  | none => cases h; exact OnlyCaps.rfl
  | some cmds => exact applyCmds_onlyCaps h

theorem OnlyCaps.current {ex ex2 : ExecSt} (h : OnlyCaps ex ex2) :
    ex2.current = ex.current := by rw [h]

theorem OnlyCaps.inputPos {ex ex2 : ExecSt} (h : OnlyCaps ex ex2) :
    ex2.inputPos = ex.inputPos := by rw [h]

theorem OnlyCaps.debug {ex ex2 : ExecSt} (h : OnlyCaps ex ex2) :
    ex2.debug = ex.debug := by rw [h]

theorem OnlyCaps.lastError {ex ex2 : ExecSt} (h : OnlyCaps ex ex2) :
    ex2.lastError = ex.lastError := by rw [h]

theorem tickTransitionMetrics_fields (changed : Bool) (ex : ExecSt) :
    (tickTransitionMetrics changed ex).current = ex.current ∧
    (tickTransitionMetrics changed ex).inputPos = ex.inputPos ∧
    (tickTransitionMetrics changed ex).debug = ex.debug ∧
    (tickTransitionMetrics changed ex).lastError = ex.lastError ∧
    (tickTransitionMetrics changed ex).captures = ex.captures ∧
    (tickTransitionMetrics changed ex).activeCaptures = ex.activeCaptures := by
  rw [tickTransitionMetrics]; split <;> simp

theorem tickEpsilonMetrics_fields (ex : ExecSt) :
    (tickEpsilonMetrics ex).current = ex.current ∧
    (tickEpsilonMetrics ex).inputPos = ex.inputPos ∧
    (tickEpsilonMetrics ex).debug = ex.debug ∧
    (tickEpsilonMetrics ex).lastError = ex.lastError ∧
    (tickEpsilonMetrics ex).captures = ex.captures ∧
    (tickEpsilonMetrics ex).activeCaptures = ex.activeCaptures := by
  rw [tickEpsilonMetrics]; split <;> simp

theorem pushTraceEntry_fields (old nw : Nat) (ch : Byte) (tid : Nat) (ex : ExecSt) :
    (pushTraceEntry old nw ch tid ex).current = ex.current ∧
    (pushTraceEntry old nw ch tid ex).inputPos = ex.inputPos ∧
    (pushTraceEntry old nw ch tid ex).debug = ex.debug ∧
    (pushTraceEntry old nw ch tid ex).lastError = ex.lastError ∧
    (pushTraceEntry old nw ch tid ex).captures = ex.captures ∧
    (pushTraceEntry old nw ch tid ex).activeCaptures = ex.activeCaptures := by
  rw [pushTraceEntry]; split <;> simp

theorem ifCallback_onlyCaps {b : Bool} {cb : Option Callback} {ex ex2 : ExecSt}
    (h : (if b then applyCallback cb ex else some ex) = some ex2) : OnlyCaps ex ex2 := by
  split at h
  · exact applyCallback_onlyCaps h
  · cases h; exact OnlyCaps.rfl

theorem takeTransition_fields {m : FSM} {ex : ExecSt} {t : Transition} {ch : Byte}
    {ex2 : ExecSt} (h : takeTransition m ex t ch = some ex2) :
    ex2.current = t.dst ∧ ex2.inputPos = ex.inputPos ∧ ex2.debug = ex.debug ∧
      ex2.lastError = ex.lastError := by
  simp only [takeTransition] at h
  rcases Option.bind_eq_some.mp h with ⟨ex1, h1, h⟩
  rcases Option.bind_eq_some.mp h with ⟨exa, ha, h⟩
  rcases Option.map_eq_some'.mp h with ⟨exb, hb, hmap⟩
  have o1 := ifCallback_onlyCaps h1
  have o2 := applyCallback_onlyCaps ha
  have o3 : OnlyCaps { exa with current := t.dst } exb := ifCallback_onlyCaps hb
  subst hmap
  obtain ⟨p1, p2, p3, p4, -, -⟩ :=
    pushTraceEntry_fields ex.current t.dst ch t.id
      (tickTransitionMetrics (ex.current != t.dst) exb)
  obtain ⟨q1, q2, q3, q4, -, -⟩ := tickTransitionMetrics_fields (ex.current != t.dst) exb
  refine ⟨?_, ?_, ?_, ?_⟩
  · rw [p1, q1, o3.current]
  · rw [p2, q2, o3.inputPos]; simp [o2.inputPos, o1.inputPos]
  · rw [p3, q3, o3.debug]; simp [o2.debug, o1.debug]
  · rw [p4, q4, o3.lastError]; simp [o2.lastError, o1.lastError]

theorem processCharImpl_false {m : FSM} {ex : ExecSt} {ch : Byte} {pos : Nat}
    {ex2 : ExecSt} (h : processCharImpl m ex ch pos = some (ex2, false)) :
    ex2 = { ex with lastError := some ⟨ErrorType.NO_MATCHING_TRANSITION, pos, ch, ex.current⟩ } ∧
      pickTransition m ex.current ch = none := by
  rw [processCharImpl] at h
  cases hp : pickTransition m ex.current ch with
  | none => rw [hp] at h; simp only [Option.some.injEq, Prod.mk.injEq] at h; simp [h.1]
  | some t =>
    rw [hp] at h
    rcases Option.map_eq_some'.mp h with ⟨exb, _, hmap⟩
    simp at hmap

theorem processCharImpl_true {m : FSM} {ex : ExecSt} {ch : Byte} {pos : Nat}
    {ex2 : ExecSt} (h : processCharImpl m ex ch pos = some (ex2, true)) :
    ∃ t, pickTransition m ex.current ch = some t ∧ takeTransition m ex t ch = some ex2 := by
  rw [processCharImpl] at h
  cases hp : pickTransition m ex.current ch with
  | none => rw [hp] at h; simp at h
  | some t =>
    rw [hp] at h
    rcases Option.map_eq_some'.mp h with ⟨exb, hb, hmap⟩
    simp only [Prod.mk.injEq] at hmap
    exact ⟨t, rfl, by rw [hb, hmap.1]⟩

theorem epsLoop_fields (m : FSM) : ∀ (fuel : Nat) (visited : List Nat) (ex ex2 : ExecSt),
    epsLoop m fuel visited ex = some ex2 →
    ex2.inputPos = ex.inputPos ∧ ex2.debug = ex.debug ∧ ex2.lastError = ex.lastError ∧
      ex2.current = closureRefGo m fuel visited ex.current := by
  intro fuel
  induction fuel with
  | zero => intro visited ex ex2 h; cases h; simp [closureRefGo]
  | succ fuel ih =>
    intro visited ex ex2 h
    rw [epsLoop] at h
    rw [closureRefGo]
    cases hf : (getTransitionsFrom m ex.current).find?
        (fun t => t.type == TransitionType.EPSILON && !(visited.contains t.dst)) with
    | none => rw [hf] at h; cases h; simp
    | some t =>
      rw [hf] at h
      rcases Option.bind_eq_some.mp h with ⟨ex1, h1, h⟩
      rcases Option.bind_eq_some.mp h with ⟨exa, ha, h⟩
      rcases Option.bind_eq_some.mp h with ⟨exb, hb, h⟩
      have o1 := applyCallback_onlyCaps h1
      have o2 := applyCallback_onlyCaps ha
      have o3 : OnlyCaps { exa with current := t.dst } exb := applyCallback_onlyCaps hb
      rcases ih (t.dst :: visited) _ ex2 h with ⟨rp, rd, re, rc⟩
      obtain ⟨p1, p2, p3, p4, -, -⟩ :=
        pushTraceEntry_fields ex.current t.dst 0 t.id (tickEpsilonMetrics exb)
      obtain ⟨q1, q2, q3, q4, -, -⟩ := tickEpsilonMetrics_fields exb
      refine ⟨?_, ?_, ?_, ?_⟩
      · rw [rp, p2, q2, o3.inputPos]; simp [o2.inputPos, o1.inputPos]
      · rw [rd, p3, q3, o3.debug]; simp [o2.debug, o1.debug]
      · rw [re, p4, q4, o3.lastError]; simp [o2.lastError, o1.lastError]
      · rw [rc]
        exact congrArg (closureRefGo m fuel (t.dst :: visited))
          (by rw [p1, q1, o3.current])

/-- What `FSM::reset` does to each component (shared helper). -/
theorem reset_proj (m : FSM) (ms : MachSt) :
    (m.reset ms).exec.current = m.startState ∧
    (m.reset ms).exec.lastError = none ∧
    (m.reset ms).exec.inputPos = 0 ∧
    (m.reset ms).streamState = StreamState.READY ∧
    (m.reset ms).streamingMode = false ∧
    (m.reset ms).choiceStack = [] ∧
    (m.reset ms).btStats = {} ∧
    (m.reset ms).exec.captures = ms.exec.captures ∧
    (m.reset ms).exec.activeCaptures = ms.exec.activeCaptures ∧
    (m.reset ms).exec.trace =
      (if ms.exec.debug.traceTransitions || ms.exec.debug.traceStateChanges
       then [] else ms.exec.trace) ∧
    (m.reset ms).exec.metrics =
      (if ms.exec.debug.collectMetrics then {} else ms.exec.metrics) ∧
    (m.reset ms).exec.debug = ms.exec.debug := by
  simp only [FSM.reset]
  split <;> split <;> simp_all

/-! # Claim theorems -/

/-- C9: for every pair of character classes and every byte, `complement`,
`unionWith` and `intersectWith` are pointwise boolean negation, disjunction
and conjunction of `matches`.  The operations build new `ABNF` values
(`ABNF result; … return result;` in the source), so the operands are
unchanged — in this pure model that is immutability by construction. -/
theorem c9_charclass_algebra (a b : ABNF) (x : Byte) :
    (a.complement).matchesByte x = !(a.matchesByte x) ∧
    (a.unionWith b).matchesByte x = (a.matchesByte x || b.matchesByte x) ∧
    (a.intersectWith b).matchesByte x = (a.matchesByte x && b.matchesByte x) :=
  ⟨rfl, rfl, rfl⟩

/-- C6 (corrected): `shouldCreateChoicePoint` returns true exactly when more
than one valid alternative exists — the choice-point flag is consulted only
after the `size <= 1` early return, so a flagged state with a single
admitting transition does *not* push; pushes are skipped once
`max_backtrack_depth` (0 = unbounded) is reached. -/
theorem c6_choice_point_condition (m : FSM) (ex : ExecSt) (valid : List Transition)
    (stack : List ChoicePoint) (stats : BtStats) (alts : List Transition) (pos : Nat) :
    shouldCreateChoicePoint m ex valid = decide (1 < valid.length) ∧
    (m.maxBacktrackDepth > 0 → m.maxBacktrackDepth ≤ stack.length →
      saveChoicePoint m ex stack stats alts pos = (stack, stats)) := by
  constructor
  · rw [shouldCreateChoicePoint]
    split
    · simp; omega
    · split <;> simp <;> omega
  · intro h1 h2
    rw [saveChoicePoint, if_pos ⟨h1, h2⟩]

/-- Counterexample for C6 as stated: in `mFlag` state 1 is flagged as a
choice point and exactly one transition admits the byte a, yet
`shouldCreateChoicePoint` says no and the whole backtracking run on "a"
pushes no choice point (`choice_points_created = 0`), while the claim
requires a push. -/
theorem c6_flagged_single_alternative_no_push :
    isChoicePointOf mFlag 1 = true ∧
    (getValidTransitions mFlag 1 bA).length = 1 ∧
    shouldCreateChoicePoint mFlag { current := 1, debug := dbg0 }
      (getValidTransitions mFlag 1 bA) = false ∧
    mFlag.maxBacktrackDepth = 0 ∧
    btOutcome (validateWithBacktracking mFlag (initMach mFlag dbg0) [bA] 10) =
      some (some (true, [], ⟨0, 0, 0, 1⟩)) :=
  ⟨rfl, rfl, rfl, rfl, rfl⟩

/-- Witness for C6 on a two-alternative state: `mCap` state 2 has two CLASS
edges admitting b, so a choice point is required and pushed. -/
theorem c6_choice_point_condition_w :
    shouldCreateChoicePoint mCap { current := 2, debug := dbg0 }
        (getValidTransitions mCap 2 bB) = true ∧
    saveChoicePoint mCap { current := 1, debug := dbg0 } [] {} [] 0 =
      ([⟨1, 0, [], [], [], 0⟩], ⟨1, 0, 1, 0⟩) := by
  constructor
  · rw [(c6_choice_point_condition mCap { current := 2, debug := dbg0 }
      (getValidTransitions mCap 2 bB) [] {} [] 0).1]
    rfl
  · rfl

/-- C7 (corrected): `feed` never reads the stream state, so an ERROR stream
state is not terminal — the counterexample below consumes a byte right after
an ERROR.  Only `reset`/`resetStream` put the status back to READY. -/
theorem c7_feed_ignores_stream_state (m : FSM) (ms : MachSt) (ch : Byte) (s : StreamState) :
    feed m { ms with streamState := s } ch = feed m ms ch ∧
    (resetStream ms).streamState = StreamState.READY ∧
    (m.reset ms).streamState = StreamState.READY := by
  refine ⟨?_, rfl, rfl⟩
  cases ms
  rw [feed, feed]
  simp only [feedBody]

/-- Counterexample for C7 as stated: on `mA` (1 —a→ 2 accept), `feed b`
yields ERROR at state 1; the claim says every subsequent feed leaves the
state ERROR without consuming input, but the next `feed a` consumes the
byte, moves to state 2 and returns COMPLETE. -/
theorem c7_error_not_terminal :
    streamOutcome (feed mA (mA.reset (initMach mA dbg0)) bB) =
      some (StreamState.ERROR, 1, 0) ∧
    streamOutcome ((feed mA (mA.reset (initMach mA dbg0)) bB).bind
        (fun ms => feed mA ms bA)) =
      some (StreamState.COMPLETE, 2, 1) :=
  ⟨rfl, rfl⟩

/-- C8 (corrected): what `reset` actually restores.  Current state, error
slot, input position, stream status, choice stack and backtracking
statistics are always reset; the trace is cleared only under a tracing flag
and the metrics only under `COLLECT_METRICS`; the capture lists are left
untouched (they are cleared by `validate`/`validateWithBacktracking`, not by
`reset`). -/
theorem c8_reset_characterisation (m : FSM) (ms : MachSt) :
    (m.reset ms).exec.current = m.startState ∧
    (m.reset ms).exec.lastError = none ∧
    (m.reset ms).exec.inputPos = 0 ∧
    (m.reset ms).streamState = StreamState.READY ∧
    (m.reset ms).streamingMode = false ∧
    (m.reset ms).choiceStack = [] ∧
    (m.reset ms).btStats = {} ∧
    (m.reset ms).exec.captures = ms.exec.captures ∧
    (m.reset ms).exec.activeCaptures = ms.exec.activeCaptures ∧
    (m.reset ms).exec.trace =
      (if ms.exec.debug.traceTransitions || ms.exec.debug.traceStateChanges
       then [] else ms.exec.trace) ∧
    (m.reset ms).exec.metrics =
      (if ms.exec.debug.collectMetrics then {} else ms.exec.metrics) := by
  obtain ⟨h1, h2, h3, h4, h5, h6, h7, h8, h9, h10, h11, -⟩ := reset_proj m ms
  exact ⟨h1, h2, h3, h4, h5, h6, h7, h8, h9, h10, h11⟩

/-- Counterexample for C8 as stated: a closed capture created through the
public capture API survives `reset`, and metrics collected under
`COLLECT_METRICS` survive a `reset` performed after the debug configuration
is switched off — contradicting "the closed and active capture lists are
empty … and the metrics counters are zero" after every reset. -/
theorem c8_reset_keeps_captures_and_metrics :
    ((beginCapture "x" (initMach mDigit dbg0).exec).bind (endCapture "x")).map
        (fun ex => (mDigit.reset { exec := ex }).exec.captures) =
      some [⟨"x", 0, 0, []⟩] ∧
    (validate mDigit (initMach mDigit dbgM) [b5]).map
        (fun p => (mDigit.reset (setDebugConfig dbg0 p.1)).exec.metrics) =
      some ⟨1, 1, 1, 0⟩ :=
  ⟨rfl, rfl⟩

/-! ## Current-state tracking through the greedy loop (claim C2) -/

theorem bumpChars_proj (ex : ExecSt) :
    (bumpChars ex).current = ex.current ∧ (bumpChars ex).inputPos = ex.inputPos ∧
    (bumpChars ex).debug = ex.debug ∧ (bumpChars ex).lastError = ex.lastError ∧
    (bumpChars ex).captures = ex.captures ∧
    (bumpChars ex).activeCaptures = ex.activeCaptures := by
  rw [bumpChars]; split <;> simp

theorem recordChar_proj (ch : Byte) (ex : ExecSt) :
    (recordCharInCaptures ch ex).current = ex.current ∧
    (recordCharInCaptures ch ex).inputPos = ex.inputPos ∧
    (recordCharInCaptures ch ex).debug = ex.debug ∧
    (recordCharInCaptures ch ex).lastError = ex.lastError ∧
    (recordCharInCaptures ch ex).captures = ex.captures := by
  rw [recordCharInCaptures]; simp

/-- `processEpsilonTransitions` computes the state-level closure and leaves
input position, debug configuration and error slot alone. -/
theorem processEpsilonTransitions_fields {m : FSM} {ex ex2 : ExecSt}
    (h : processEpsilonTransitions m ex = some ex2) :
    ex2.inputPos = ex.inputPos ∧ ex2.debug = ex.debug ∧ ex2.lastError = ex.lastError ∧
      ex2.current = closureRef m ex.current := by
  exact epsLoop_fields m (m.transitions.length + 1) [ex.current] ex ex2 h

/-- Acceptance of the greedy loop matches the reference semantics that
performs no epsilon work between bytes and a single closure at the end. -/
theorem validateGo_acceptance (m : FSM) :
    ∀ (rest : List Byte) (i : Nat) (ex ex2 : ExecSt) (b : Bool),
      validateGo m ex rest i = some (ex2, b) →
      b = (match consumeAll m ex.current rest with
           | none => false
           | some s => isAcceptState m (closureRef m s)) := by
  intro rest
  induction rest with
  | nil =>
    intro i ex ex2 b h
    show b = isAcceptState m (closureRef m ex.current)
    cases he : processEpsilonTransitions m { ex with inputPos := i } with
    | none => simp only [validateGo, he] at h; exact Option.noConfusion h
    | some exE =>
      have hc : exE.current = closureRef m ex.current :=
        (processEpsilonTransitions_fields he).2.2.2
      simp only [validateGo, he] at h
      split at h <;> simp only [Option.some.injEq, Prod.mk.injEq] at h <;>
        rename_i hacc <;> rw [← h.2, ← hc]
      · exact hacc.symm
      · simp only [Bool.not_eq_true] at hacc
        exact hacc.symm
  | cons ch rest ih =>
    intro i ex ex2 b h
    cases hp : processCharImpl m { ex with inputPos := i } ch i with
    | none => simp only [validateGo, hp] at h; exact Option.noConfusion h
    | some p =>
      obtain ⟨exP, bP⟩ := p
      cases bP with
      | false =>
        simp only [validateGo, hp, Option.some.injEq, Prod.mk.injEq] at h
        have hnone : pickTransition m ex.current ch = none := (processCharImpl_false hp).2
        have hca : consumeAll m ex.current (ch :: rest) = none := by
          rw [consumeAll, stepByteRef, hnone]; rfl
        rw [hca]
        exact h.2.symm
      | true =>
        simp only [validateGo, hp] at h
        obtain ⟨t, hpick, htake⟩ := processCharImpl_true hp
        have hpick2 : pickTransition m ex.current ch = some t := hpick
        have hcur : exP.current = t.dst := (takeTransition_fields htake).1
        have hca : consumeAll m ex.current (ch :: rest) = consumeAll m t.dst rest := by
          rw [consumeAll, stepByteRef, hpick2]; rfl
        have hrec := ih (i + 1) (recordCharInCaptures ch (bumpChars exP)) ex2 b h
        rw [(recordChar_proj ch (bumpChars exP)).1, (bumpChars_proj exP).1, hcur] at hrec
        rw [hca]
        exact hrec

/-- C2 (corrected): the epsilon closure runs only once per run, at end of
input — never between byte consumptions.  The greedy outcome equals the
reference semantics `greedyRefEndClosure` (consume every byte by the first
matching CLASS edge with no epsilon steps in between, then one closure);
a non-ERROR `feed` moves the current state exactly to the chosen CLASS
target (no closure is applied); the closure runs in `endOfStream`. -/
theorem c2_closure_only_at_end (m : FSM) :
    (∀ dbg input ms b, validate m (initMach m dbg) input = some (ms, b) →
      b = greedyRefEndClosure m input) ∧
    (∀ ms ch ms2, feed m ms ch = some ms2 → ms2.streamState ≠ StreamState.ERROR →
      stepByteRef m ms.exec.current ch = some ms2.exec.current) ∧
    (∀ ms ms2, endOfStream m ms = some ms2 → ms.streamingMode = true →
      ms2.exec.current = closureRef m ms.exec.current) := by
  refine ⟨?_, ?_, ?_⟩
  · intro dbg input ms b h
    rw [validate] at h
    rw [greedyRefEndClosure]
    split at h
    · rename_i h0
      simp only [Option.some.injEq, Prod.mk.injEq] at h
      rw [if_pos h0, ← h.2]
    · rename_i h0
      rw [if_neg h0]
      rcases Option.map_eq_some'.mp h with ⟨⟨exV, bV⟩, hgo, hpair⟩
      simp only [Prod.mk.injEq] at hpair
      have := validateGo_acceptance m input 0 _ exV bV hgo
      rw [← hpair.2, this]
      show (match consumeAll m (m.reset (initMach m dbg)).exec.current input with
            | none => false
            | some s => isAcceptState m (closureRef m s)) =
        (match consumeAll m m.startState input with
            | none => false
            | some s => isAcceptState m (closureRef m s))
      rw [(reset_proj m (initMach m dbg)).1]
  · intro ms ch ms2 hf hne
    rw [feed] at hf
    have hbody : ∀ msx : MachSt, msx.exec = ms.exec → feedBody m msx ch = some ms2 →
        stepByteRef m ms.exec.current ch = some ms2.exec.current := by
      intro msx hexec hb
      rw [feedBody] at hb
      cases hp : processCharImpl m msx.exec ch msx.exec.inputPos with
      | none => rw [hp] at hb; exact absurd hb (by simp)
      | some p =>
        rw [hp] at hb
        obtain ⟨exP, bP⟩ := p
        cases bP with
        | false =>
          simp only [Option.some.injEq] at hb
          rw [← hb] at hne
          exact absurd rfl hne
        | true =>
          obtain ⟨t, hpick, htake⟩ := processCharImpl_true hp
          have hcur : exP.current = t.dst := (takeTransition_fields htake).1
          simp only [Option.some.injEq] at hb
          rw [stepByteRef, ← hexec, hpick]
          rw [← hb]
          simp only [Option.map_some', Option.some.injEq]
          rw [(recordChar_proj ch (bumpChars exP)).1, (bumpChars_proj exP).1, hcur]
    split at hf
    · split at hf
      · simp only [Option.some.injEq] at hf
        rw [← hf] at hne
        exact absurd rfl hne
      · exact hbody { ms with streamingMode := true, streamState := StreamState.PROCESSING } rfl hf
    · exact hbody ms rfl hf
  · intro ms ms2 he hsm
    rw [endOfStream, if_neg (by rw [hsm]; simp)] at he
    cases hp : processEpsilonTransitions m ms.exec with
    | none => rw [hp] at he; exact Option.noConfusion he
    | some exE =>
      have hc := (processEpsilonTransitions_fields hp).2.2.2
      simp only [hp] at he
      split at he <;> simp only [Option.some.injEq] at he <;> rw [← he] <;> exact hc

/-- Counterexample for C2 as stated: on `mEps` (1 —a→ 2 —ε→ 3 —b→ 4 accept)
an executor that closed epsilon edges after every byte would accept "ab"
(`validatePerByteClosure`, modelled from the claim's words), but the code
rejects it with `NO_MATCHING_TRANSITION`: after consuming a at position 0
the machine sits in state 2, whose only outgoing edge is the epsilon, and no
closure happens before byte b is examined. -/
theorem c2_no_per_byte_closure :
    valOutcome (validate mEps (initMach mEps dbg0) [bA, bB]) =
      some (false, some ErrorType.NO_MATCHING_TRANSITION) ∧
    validatePerByteClosure mEps [bA, bB] = true ∧
    greedyRefEndClosure mEps [bA, bB] = false :=
  ⟨rfl, rfl, rfl⟩

/-- Witness for C2 on `mDigit`: the one-shot outcome on "5" matches the
end-closure reference, `feed` moves 1 to 2 with no closure, and
`endOfStream` applies the closure (a fixed point at state 2). -/
theorem c2_closure_only_at_end_w :
    (true = greedyRefEndClosure mDigit [b5]) ∧
    (stepByteRef mDigit 1 b5 = some 2) ∧
    ((2 : Nat) = closureRef mDigit 2) := by
  refine ⟨?_, ?_, ?_⟩
  · exact (c2_closure_only_at_end mDigit).1 dbg0 [b5]
      ⟨⟨2, none, [], [], 1, [], {}, dbg0⟩, StreamState.READY, false, [], {}⟩ true rfl
  · exact (c2_closure_only_at_end mDigit).2.1 (mDigit.reset (initMach mDigit dbg0)) b5
      ⟨⟨2, none, [], [], 1, [], {}, dbg0⟩, StreamState.COMPLETE, true, [], {}⟩ rfl (by decide)
  · exact (c2_closure_only_at_end mDigit).2.2
      ⟨⟨2, none, [], [], 1, [], {}, dbg0⟩, StreamState.COMPLETE, true, [], {}⟩
      ⟨⟨2, none, [], [], 1, [], {}, dbg0⟩, StreamState.COMPLETE, true, [], {}⟩ rfl rfl

/-- C3 (code bug): in the backtracking restore path the byte recorded into
the restored active-capture buffers is the byte at the *failing* position
(`ch = input[position]`), not the byte at the resumed choice-point position
(`input[cp.position]`).  On `mCap` with input "abc" the accepted run
re-consumes b at position 1, but the capture begun at position 0 ends the
run with buffer "acc" instead of "abc" — violating the snapshot/restore
contract (`c.buffer == input[s..p]`) the spec states. -/
theorem c3_backtracking_capture_corruption :
    btOutcome (validateWithBacktracking mCap (initMach mCap dbg0) [bA, bB, bC] 20) =
      some (some (true, [⟨"x", 0, [bA, bC, bC]⟩], ⟨1, 1, 1, 4⟩)) ∧
    [bA, bC, bC] ≠ [bA, bB, bC] :=
  ⟨rfl, by decide⟩

/-- The streaming run simulates the greedy loop byte for byte, provided the
loop never fails mid-input: with streaming mode on, feeding the remaining
bytes and closing the stream yields exactly the greedy loop's final executor
state, with stream state COMPLETE on acceptance and ERROR on a final
`NOT_IN_ACCEPT_STATE`.  (On a mid-input `NO_MATCHING_TRANSITION` the two
sides genuinely diverge — see the C1 counterexample.) -/
theorem streamSim (m : FSM) : ∀ (rest : List Byte) (i : Nat) (ex : ExecSt)
    (ss : StreamState) (stk : List ChoicePoint) (bt : BtStats),
    (validateGo m ex rest i = none →
      (feedList m ⟨{ ex with inputPos := i }, ss, true, stk, bt⟩ rest).bind
        (endOfStream m) = none) ∧
    (∀ ex2, validateGo m ex rest i = some (ex2, true) →
      (feedList m ⟨{ ex with inputPos := i }, ss, true, stk, bt⟩ rest).bind
        (endOfStream m) = some ⟨ex2, StreamState.COMPLETE, true, stk, bt⟩) ∧
    (∀ ex2, validateGo m ex rest i = some (ex2, false) →
      errKind ex2 = some ErrorType.NOT_IN_ACCEPT_STATE →
      (feedList m ⟨{ ex with inputPos := i }, ss, true, stk, bt⟩ rest).bind
        (endOfStream m) = some ⟨ex2, StreamState.ERROR, true, stk, bt⟩) := by
  intro rest
  induction rest with
  | nil =>
    intro i ex ss stk bt
    have hfl : feedList m ⟨{ ex with inputPos := i }, ss, true, stk, bt⟩ [] =
      some ⟨{ ex with inputPos := i }, ss, true, stk, bt⟩ := rfl
    rw [hfl]
    cases he : processEpsilonTransitions m { ex with inputPos := i } with
    | none =>
      have heos : (some (⟨{ ex with inputPos := i }, ss, true, stk, bt⟩ : MachSt)).bind
          (endOfStream m) = none := by
        simp only [Option.some_bind, endOfStream]
        simp [he]
      refine ⟨fun _ => heos, fun ex2 hv => ?_, fun ex2 hv _ => ?_⟩ <;>
        · simp only [validateGo, he] at hv
          exact Option.noConfusion hv
    | some exE =>
      have hpos : exE.inputPos = i := (processEpsilonTransitions_fields he).1
      have heos : endOfStream m ⟨{ ex with inputPos := i }, ss, true, stk, bt⟩ =
          (if isAcceptState m exE.current then
            some ⟨exE, StreamState.COMPLETE, true, stk, bt⟩
          else
            some ⟨{ exE with lastError := some ⟨ErrorType.NOT_IN_ACCEPT_STATE, i, 0, exE.current⟩ }, StreamState.ERROR, true, stk, bt⟩) := by
        rw [endOfStream, if_neg (by simp)]
        simp only [he, hpos]
      refine ⟨fun hv => ?_, fun ex2 hv => ?_, fun ex2 hv herr => ?_⟩
      · simp only [validateGo, he] at hv
        split at hv <;> exact Option.noConfusion hv
      · simp only [validateGo, he] at hv
        rw [Option.some_bind, heos]
        split at hv <;> simp only [Option.some.injEq, Prod.mk.injEq] at hv
        · rename_i hacc
          rw [if_pos hacc, hv.1]
        · exact absurd hv.2 (by simp)
      · simp only [validateGo, he] at hv
        rw [Option.some_bind, heos]
        split at hv <;> simp only [Option.some.injEq, Prod.mk.injEq] at hv
        · exact absurd hv.2 (by simp)
        · rename_i hacc
          rw [if_neg hacc, ← hv.1]
  | cons ch rest ih =>
    intro i ex ss stk bt
    have hfl : feedList m ⟨{ ex with inputPos := i }, ss, true, stk, bt⟩ (ch :: rest) =
        (feed m ⟨{ ex with inputPos := i }, ss, true, stk, bt⟩ ch).bind
          (fun ms => feedList m ms rest) := rfl
    rw [hfl]
    have hfeed : feed m ⟨{ ex with inputPos := i }, ss, true, stk, bt⟩ ch =
        feedBody m ⟨{ ex with inputPos := i }, ss, true, stk, bt⟩ ch := by
      rw [feed]; simp
    rw [hfeed]
    cases hp : processCharImpl m { ex with inputPos := i } ch i with
    | none =>
      have hb : feedBody m ⟨{ ex with inputPos := i }, ss, true, stk, bt⟩ ch = none := by
        rw [feedBody]; simp only [hp]
      rw [hb]
      refine ⟨fun _ => rfl, fun ex2 hv => ?_, fun ex2 hv _ => ?_⟩ <;>
        · simp only [validateGo, hp] at hv
          exact Option.noConfusion hv
    | some p =>
      obtain ⟨exP, bP⟩ := p
      cases bP with
      | false =>
        have hnm : errKind exP = some ErrorType.NO_MATCHING_TRANSITION := by
          rw [(processCharImpl_false hp).1]; rfl
        refine ⟨fun hv => ?_, fun ex2 hv => ?_, fun ex2 hv herr => ?_⟩
        · simp only [validateGo, hp] at hv
          exact Option.noConfusion hv
        · simp only [validateGo, hp, Option.some.injEq, Prod.mk.injEq] at hv
          exact absurd hv.2 (by simp)
        · simp only [validateGo, hp, Option.some.injEq, Prod.mk.injEq] at hv
          rw [← hv.1] at herr
          rw [hnm] at herr
          exact absurd herr (by simp)
      | true =>
        have hiP : exP.inputPos = i := by
          obtain ⟨t, hpick, htake⟩ := processCharImpl_true hp
          exact (takeTransition_fields htake).2.1
        have hb : feedBody m ⟨{ ex with inputPos := i }, ss, true, stk, bt⟩ ch =
            some ⟨{ recordCharInCaptures ch (bumpChars exP) with inputPos := i + 1 },
              (if isAcceptState m (recordCharInCaptures ch (bumpChars exP)).current
               then StreamState.COMPLETE else StreamState.WAITING_FOR_INPUT),
              true, stk, bt⟩ := by
          rw [feedBody]
          simp only [hp]
          have : (recordCharInCaptures ch (bumpChars exP)).inputPos = i := by
            rw [(recordChar_proj ch (bumpChars exP)).2.1, (bumpChars_proj exP).2.1, hiP]
          rw [this]
        rw [hb]
        have hrec := ih (i + 1) (recordCharInCaptures ch (bumpChars exP))
          (if isAcceptState m (recordCharInCaptures ch (bumpChars exP)).current
           then StreamState.COMPLETE else StreamState.WAITING_FOR_INPUT) stk bt
        refine ⟨fun hv => ?_, fun ex2 hv => ?_, fun ex2 hv herr => ?_⟩ <;>
          simp only [validateGo, hp] at hv
        · exact hrec.1 hv
        · exact hrec.2.1 ex2 hv
        · exact hrec.2.2 ex2 hv herr

/-- On a freshly constructed machine `reset` is the identity. -/
theorem reset_initMach (m : FSM) (dbg : DebugConfig) :
    m.reset (initMach m dbg) = initMach m dbg := by
  simp [FSM.reset, initMach]

/-- An accepting greedy loop never touches the error slot. -/
theorem validateGo_noerr (m : FSM) : ∀ (rest : List Byte) (i : Nat) (ex ex2 : ExecSt),
    validateGo m ex rest i = some (ex2, true) → ex2.lastError = ex.lastError := by
  intro rest
  induction rest with
  | nil =>
    intro i ex ex2 h
    cases he : processEpsilonTransitions m { ex with inputPos := i } with
    | none => simp only [validateGo, he] at h; exact Option.noConfusion h
    | some exE =>
      simp only [validateGo, he] at h
      have hp : exE.lastError = ex.lastError := (processEpsilonTransitions_fields he).2.2.1
      split at h <;> simp only [Option.some.injEq, Prod.mk.injEq] at h
      · rw [← h.1]; exact hp
      · exact absurd h.2 (by simp)
  | cons ch rest ih =>
    intro i ex ex2 h
    cases hp : processCharImpl m { ex with inputPos := i } ch i with
    | none => simp only [validateGo, hp] at h; exact Option.noConfusion h
    | some p =>
      obtain ⟨exP, bP⟩ := p
      cases bP with
      | false =>
        simp only [validateGo, hp, Option.some.injEq, Prod.mk.injEq] at h
        exact absurd h.2 (by simp)
      | true =>
        simp only [validateGo, hp] at h
        obtain ⟨t, _, htake⟩ := processCharImpl_true hp
        have h1 : exP.lastError = ex.lastError := (takeTransition_fields htake).2.2.2
        have := ih (i + 1) (recordCharInCaptures ch (bumpChars exP)) ex2 h
        rw [this, (recordChar_proj ch (bumpChars exP)).2.2.2.1, (bumpChars_proj exP).2.2.2.1, h1]

/-- C1 (corrected): for a machine with a valid start state and a *nonempty*
input on which greedy validation does not fail mid-input (it either accepts
or fails only with `NOT_IN_ACCEPT_STATE` after consuming every byte),
one-shot `validate` and the streaming protocol
`feed(x[0]) … feed(x[n-1]); endOfStream()` from a freshly reset machine
produce identical executor states — in particular the same accept/reject
outcome (COMPLETE versus ERROR) and the same closed captures.  The empty
input, mid-input predicate misses, and invalid-start machines with edges out
of state id 0 genuinely diverge (see the counterexample). -/
theorem c1_streaming_equivalence (m : FSM) (dbg : DebugConfig) (ch : Byte)
    (rest : List Byte) (msV : MachSt) (b : Bool)
    (hstart : m.startState ≠ 0)
    (hval : validate m (initMach m dbg) (ch :: rest) = some (msV, b))
    (hok : b = true ∨ errKind msV.exec = some ErrorType.NOT_IN_ACCEPT_STATE) :
    ∃ msS, streamRun m (initMach m dbg) (ch :: rest) = some msS ∧
      msS.exec = msV.exec ∧
      msS.streamState = (if b then StreamState.COMPLETE else StreamState.ERROR) := by
  rw [validate, reset_initMach, if_neg hstart] at hval
  rcases Option.map_eq_some'.mp hval with ⟨⟨exV, bV⟩, hgo, hpair⟩
  simp only [Prod.mk.injEq] at hpair
  have hgo2 : validateGo m (initMach m dbg).exec (ch :: rest) 0 = some (exV, bV) := hgo
  have hexecV : msV.exec = exV := by rw [← hpair.1]
  have hb : bV = b := hpair.2
  have hsr : streamRun m (initMach m dbg) (ch :: rest) =
      (feedList m ⟨{ (initMach m dbg).exec with inputPos := 0 },
        StreamState.PROCESSING, true, [], {}⟩ (ch :: rest)).bind (endOfStream m) := by
    rw [streamRun, reset_initMach]
    have h1 : feed m (initMach m dbg) ch =
        feedBody m ⟨(initMach m dbg).exec, StreamState.PROCESSING, true, [], {}⟩ ch := by
      rw [feed, if_pos (show (initMach m dbg).streamingMode = false from rfl),
        if_neg hstart]
      rfl
    have h2 : feed m ⟨{ (initMach m dbg).exec with inputPos := 0 },
        StreamState.PROCESSING, true, [], {}⟩ ch =
        feedBody m ⟨(initMach m dbg).exec, StreamState.PROCESSING, true, [], {}⟩ ch := by
      rw [feed, if_neg (by simp)]
      simp [initMach]
    show ((feed m (initMach m dbg) ch).bind (fun ms => feedList m ms rest)).bind
        (endOfStream m) = _
    rw [h1, ← h2]
    rfl
  have hsim := streamSim m (ch :: rest) 0 (initMach m dbg).exec
    StreamState.PROCESSING [] {}
  rcases hok with hok | hok
  · subst hok
    rw [hb] at hgo2
    have := hsim.2.1 exV hgo2
    refine ⟨⟨exV, StreamState.COMPLETE, true, [], {}⟩, ?_, ?_, ?_⟩
    · rw [hsr]; exact this
    · rw [hexecV]
    · simp
  · have hbF : b = false := by
      rcases hpair with ⟨h1, h2⟩
      by_contra hbt
      rw [Bool.not_eq_false] at hbt
      subst hbt
      rw [hb] at hgo2
      have h0 : validateGo m (initMach m dbg).exec (ch :: rest) 0 = some (exV, true) := hgo2
      have hacc := validateGo_noerr m _ _ _ _ h0
      rw [hexecV, errKind, hacc] at hok
      simp [initMach] at hok
    subst hbF
    rw [hb] at hgo2
    rw [hexecV] at hok
    have := hsim.2.2 exV hgo2 hok
    refine ⟨⟨exV, StreamState.ERROR, true, [], {}⟩, ?_, ?_, ?_⟩
    · rw [hsr]; exact this
    · rw [hexecV]
    · simp

/-- Counterexample for C1 as stated.  Three divergences: (i) on the empty
sequence, `validate` accepts `mEmptyOk` while the streaming protocol
(`endOfStream` with no prior feed) reports `UNEXPECTED_END_OF_INPUT`;
(ii) on "ba" against `mA`, `validate` rejects with
`NO_MATCHING_TRANSITION` while the streaming run completes, because `feed`
keeps consuming after an ERROR; (iii) on the degenerate `mZeroStart`
(invalid start id 0 with an edge out of id 0), `validate` refuses with
`NO_START_STATE` while the streaming run consumes "aa" from state 0 and
completes. -/
theorem c1_streaming_divergence :
    valOutcome (validate mEmptyOk (initMach mEmptyOk dbg0) []) = some (true, none) ∧
    (streamRun mEmptyOk (initMach mEmptyOk dbg0) []).map
        (fun ms => (ms.streamState, errKind ms.exec)) =
      some (StreamState.ERROR, some ErrorType.UNEXPECTED_END_OF_INPUT) ∧
    valOutcome (validate mA (initMach mA dbg0) [bB, bA]) =
      some (false, some ErrorType.NO_MATCHING_TRANSITION) ∧
    streamOutcome (streamRun mA (initMach mA dbg0) [bB, bA]) =
      some (StreamState.COMPLETE, 2, 1) ∧
    valOutcome (validate mZeroStart (initMach mZeroStart dbg0) [bA, bA]) =
      some (false, some ErrorType.NO_START_STATE) ∧
    streamOutcome (streamRun mZeroStart (initMach mZeroStart dbg0) [bA, bA]) =
      some (StreamState.COMPLETE, 2, 1) :=
  ⟨rfl, rfl, rfl, rfl, rfl, rfl⟩

/-- Witness for C1 on `mDigit` with input "5": the one-shot run accepts and
the streaming run completes with the identical executor state. -/
theorem c1_streaming_equivalence_w :
    ∃ msS, streamRun mDigit (initMach mDigit dbg0) [b5] = some msS ∧
      msS.exec = (⟨2, none, [], [], 1, [], {}, dbg0⟩ : ExecSt) ∧
      msS.streamState = (if true then StreamState.COMPLETE else StreamState.ERROR) :=
  c1_streaming_equivalence mDigit dbg0 b5 []
    ⟨⟨2, none, [], [], 1, [], {}, dbg0⟩, StreamState.READY, false, [], {}⟩ true
    (by decide) rfl (Or.inl rfl)

/-! ## The backtracking executor follows the greedy path (claim C5) -/

theorem bump_setPos (ex : ExecSt) (p : Nat) :
    bumpChars { ex with inputPos := p } = { bumpChars ex with inputPos := p } := by
  simp only [bumpChars]
  split <;> rfl

theorem bump_record_comm (ch : Byte) (ex : ExecSt) :
    bumpChars (recordCharInCaptures ch ex) = recordCharInCaptures ch (bumpChars ex) := by
  simp only [bumpChars, recordCharInCaptures]
  split <;> rfl

theorem validateGo_setPos (m : FSM) (ex : ExecSt) (p : Nat) (rest : List Byte) (i : Nat) :
    validateGo m { ex with inputPos := p } rest i = validateGo m ex rest i := by
  cases rest <;> rfl

/-- On a trace the greedy loop accepts, the backtracking main loop takes the
same transitions (its first valid alternative is exactly the greedy pick)
and therefore accepts, whatever its choice stack and statistics. -/
theorem vwbLoop_follows_greedy (m : FSM) (input : List Byte) :
    ∀ (rest : List Byte) (i : Nat) (ex exV : ExecSt) (stk : List ChoicePoint)
      (bt : BtStats) (fuel : Nat),
      input.drop i = rest → i ≤ input.length → rest.length + 1 ≤ fuel →
      validateGo m ex rest i = some (exV, true) →
      ∃ ms2, vwbLoop m input ex stk bt i fuel = some (some (ms2, true)) := by
  intro rest
  induction rest with
  | nil =>
    intro i ex exV stk bt fuel hdrop hle hfuel hval
    have hi : i = input.length := by
      rw [List.drop_eq_nil_iff] at hdrop
      omega
    subst hi
    cases fuel with
    | zero => omega
    | succ f =>
      rw [vwbLoop, dif_neg (by omega)]
      cases he : processEpsilonTransitions m { ex with inputPos := input.length } with
      | none => simp only [validateGo, he] at hval; exact Option.noConfusion hval
      | some exE =>
        simp only [validateGo, he] at hval
        simp only [he]
        split at hval <;> simp only [Option.some.injEq, Prod.mk.injEq] at hval
        · rename_i hacc
          rw [if_pos hacc]
          exact ⟨_, rfl⟩
        · exact absurd hval.2 (by simp)
  | cons ch rest ih =>
    intro i ex exV stk bt fuel hdrop hle hfuel hval
    have hlen : i < input.length := by
      have := congrArg List.length hdrop
      simp only [List.length_drop, List.length_cons] at this
      omega
    have hget : input.get ⟨i, hlen⟩ = ch := by
      have h2 : (input.drop i).head? = some ch := by rw [hdrop]; rfl
      rw [List.head?_drop] at h2
      simpa [List.getElem?_eq_getElem hlen] using h2
    have hdrop2 : input.drop (i + 1) = rest := by
      have := congrArg (List.drop 1) hdrop
      simpa [List.drop_drop] using this
    cases fuel with
    | zero => omega
    | succ f =>
      rw [vwbLoop, dif_pos hlen, hget]
      cases hp : processCharImpl m { ex with inputPos := i } ch i with
      | none => simp only [validateGo, hp] at hval; exact Option.noConfusion hval
      | some p =>
        obtain ⟨exP, bP⟩ := p
        cases bP with
        | false =>
          simp only [validateGo, hp, Option.some.injEq, Prod.mk.injEq] at hval
          exact absurd hval.2 (by simp)
        | true =>
          simp only [validateGo, hp] at hval
          obtain ⟨t, hpick, htake⟩ := processCharImpl_true hp
          have hhead : (getValidTransitions m ex.current ch).head? = some t := by
            rw [← pickTransition_eq_head_valid]
            exact hpick
          cases hv : getValidTransitions m ex.current ch with
          | nil => rw [hv] at hhead; exact Option.noConfusion hhead
          | cons t0 vrest =>
            rw [hv] at hhead
            simp only [List.head?_cons, Option.some.injEq] at hhead
            subst hhead
            simp only [hv]
            have htake2 := htake
            rw [htake2]
            have hiP : exP.inputPos = i := (takeTransition_fields htake).2.1
            have hstep :
                validateGo m (bumpChars { recordCharInCaptures ch exP with
                  inputPos := (recordCharInCaptures ch exP).inputPos + 1 }) rest (i + 1) =
                some (exV, true) := by
              rw [bump_setPos, validateGo_setPos, bump_record_comm]
              exact hval
            exact ih (i + 1)
              (bumpChars { recordCharInCaptures ch exP with
                inputPos := (recordCharInCaptures ch exP).inputPos + 1 })
              exV _ _ f hdrop2 (by omega) (by simp at hfuel; omega) hstep

/-- C5: whenever greedy `validate` accepts an input from a freshly built
machine, `validateWithBacktracking` accepts the same input (for any
sufficient recursion fuel — the run needs none of the backtracking
machinery, since at every position the greedy pick is the first valid
alternative). -/
theorem c5_greedy_implies_backtracking (m : FSM) (dbg : DebugConfig)
    (input : List Byte) (msV : MachSt) (fuel : Nat)
    (hfuel : input.length + 2 ≤ fuel)
    (hval : validate m (initMach m dbg) input = some (msV, true)) :
    ∃ msB, validateWithBacktracking m (initMach m dbg) input fuel =
      some (some (msB, true)) := by
  rw [validate, reset_initMach] at hval
  by_cases h0 : m.startState = 0
  · rw [if_pos h0] at hval
    simp only [Option.some.injEq, Prod.mk.injEq] at hval
    exact absurd hval.2 (by simp)
  · rw [if_neg h0] at hval
    rcases Option.map_eq_some'.mp hval with ⟨⟨exV, bV⟩, hgo, hpair⟩
    simp only [Prod.mk.injEq] at hpair
    have hgo2 : validateGo m (initMach m dbg).exec input 0 = some (exV, true) := by
      rw [hpair.2] at hgo
      exact hgo
    cases fuel with
    | zero => omega
    | succ f =>
      rw [validateWithBacktracking, reset_initMach, if_neg h0]
      exact vwbLoop_follows_greedy m input input 0 (initMach m dbg).exec exV [] {} f
        (List.drop_zero input) (by omega) (by omega) hgo2

/-- Witness for C5 on `mDigit` with input "5": the greedy run accepts, and
so does the backtracking run. -/
theorem c5_greedy_implies_backtracking_w :
    ∃ msB, validateWithBacktracking mDigit (initMach mDigit dbg0) [b5] 3 =
      some (some (msB, true)) :=
  c5_greedy_implies_backtracking mDigit dbg0 [b5]
    ⟨⟨2, none, [], [], 1, [], {}, dbg0⟩, StreamState.READY, false, [], {}⟩ 3
    (by simp) rfl

/-! ## The executors never consult `State.type` (claim C10) -/

theorem find?_map_retype (f : Nat → StateType) (i : Nat) :
    ∀ l : List State,
      (l.map (fun s => { s with type := f s.id })).find? (fun s => s.id == i) =
        (l.find? (fun s => s.id == i)).map (fun s => { s with type := f s.id }) := by
  intro l
  induction l with
  | nil => rfl
  | cons s rest ih =>
    simp only [List.map_cons, List.find?_cons]
    by_cases h : (s.id == i) = true
    · simp [h]
    · simp [h, ih]

theorem retype_startState (f : Nat → StateType) (m : FSM) :
    (retypeStates f m).startState = m.startState := rfl

theorem retype_getTransitionsFrom (f : Nat → StateType) (m : FSM) (s : Nat) :
    getTransitionsFrom (retypeStates f m) s = getTransitionsFrom m s := rfl

theorem retype_pickTransition (f : Nat → StateType) (m : FSM) (s : Nat) (ch : Byte) :
    pickTransition (retypeStates f m) s ch = pickTransition m s ch := rfl

theorem retype_getValidTransitions (f : Nat → StateType) (m : FSM) (s : Nat) (ch : Byte) :
    getValidTransitions (retypeStates f m) s ch = getValidTransitions m s ch := rfl

theorem retype_isAcceptState (f : Nat → StateType) (m : FSM) (s : Nat) :
    isAcceptState (retypeStates f m) s = isAcceptState m s := rfl

theorem retype_reset (f : Nat → StateType) (m : FSM) (ms : MachSt) :
    (retypeStates f m).reset ms = m.reset ms := rfl

theorem retype_entryCbOf (f : Nat → StateType) (m : FSM) (i : Nat) :
    entryCbOf (retypeStates f m) i = entryCbOf m i := by
  rw [entryCbOf, entryCbOf, findState, findState]
  show ((m.states.map (fun s => { s with type := f s.id })).find?
    (fun s => s.id == i)).bind _ = _
  rw [find?_map_retype]
  cases m.states.find? (fun s => s.id == i) <;> rfl

theorem retype_exitCbOf (f : Nat → StateType) (m : FSM) (i : Nat) :
    exitCbOf (retypeStates f m) i = exitCbOf m i := by
  rw [exitCbOf, exitCbOf, findState, findState]
  show ((m.states.map (fun s => { s with type := f s.id })).find?
    (fun s => s.id == i)).bind _ = _
  rw [find?_map_retype]
  cases m.states.find? (fun s => s.id == i) <;> rfl

theorem retype_isChoicePointOf (f : Nat → StateType) (m : FSM) (i : Nat) :
    isChoicePointOf (retypeStates f m) i = isChoicePointOf m i := by
  rw [isChoicePointOf, isChoicePointOf, findState, findState]
  show (match (m.states.map (fun s => { s with type := f s.id })).find?
    (fun s => s.id == i) with | none => false | some s => s.isChoicePoint) = _
  rw [find?_map_retype]
  cases m.states.find? (fun s => s.id == i) <;> rfl

theorem retype_takeTransition (f : Nat → StateType) (m : FSM) (ex : ExecSt)
    (t : Transition) (ch : Byte) :
    takeTransition (retypeStates f m) ex t ch = takeTransition m ex t ch := by
  simp only [takeTransition, retype_exitCbOf, retype_entryCbOf]

theorem retype_processCharImpl (f : Nat → StateType) (m : FSM) (ex : ExecSt)
    (ch : Byte) (pos : Nat) :
    processCharImpl (retypeStates f m) ex ch pos = processCharImpl m ex ch pos := by
  simp only [processCharImpl, retype_pickTransition, retype_takeTransition]

theorem retype_epsLoop (f : Nat → StateType) (m : FSM) :
    ∀ (fuel : Nat) (visited : List Nat) (ex : ExecSt),
      epsLoop (retypeStates f m) fuel visited ex = epsLoop m fuel visited ex := by
  intro fuel
  induction fuel with
  | zero => intro visited ex; rfl
  | succ fuel ih =>
    intro visited ex
    simp only [epsLoop, retype_getTransitionsFrom, retype_exitCbOf, retype_entryCbOf, ih]

theorem retype_processEpsilonTransitions (f : Nat → StateType) (m : FSM) (ex : ExecSt) :
    processEpsilonTransitions (retypeStates f m) ex = processEpsilonTransitions m ex := by
  rw [processEpsilonTransitions, processEpsilonTransitions]
  show epsLoop (retypeStates f m) (m.transitions.length + 1) [ex.current] ex = _
  rw [retype_epsLoop]

theorem retype_validateGo (f : Nat → StateType) (m : FSM) :
    ∀ (rest : List Byte) (ex : ExecSt) (i : Nat),
      validateGo (retypeStates f m) ex rest i = validateGo m ex rest i := by
  intro rest
  induction rest with
  | nil =>
    intro ex i
    simp only [validateGo, retype_processEpsilonTransitions, retype_isAcceptState]
  | cons ch rest ih =>
    intro ex i
    simp only [validateGo, retype_processCharImpl]
    cases processCharImpl m { ex with inputPos := i } ch i with
    | none => rfl
    | some p =>
      obtain ⟨exP, bP⟩ := p
      cases bP <;> simp only [ih]

theorem retype_validate (f : Nat → StateType) (m : FSM) (ms : MachSt) (input : List Byte) :
    validate (retypeStates f m) ms input = validate m ms input := by
  simp only [validate, retype_reset, retype_startState, retype_validateGo]

theorem retype_endOfStream (f : Nat → StateType) (m : FSM) (ms : MachSt) :
    endOfStream (retypeStates f m) ms = endOfStream m ms := by
  simp only [endOfStream, retype_processEpsilonTransitions, retype_isAcceptState]

theorem retype_shouldCreateChoicePoint (f : Nat → StateType) (m : FSM) (ex : ExecSt)
    (valid : List Transition) :
    shouldCreateChoicePoint (retypeStates f m) ex valid = shouldCreateChoicePoint m ex valid := by
  simp only [shouldCreateChoicePoint, retype_isChoicePointOf]

theorem retype_saveChoicePoint (f : Nat → StateType) (m : FSM) (ex : ExecSt)
    (stack : List ChoicePoint) (stats : BtStats) (alts : List Transition) (pos : Nat) :
    saveChoicePoint (retypeStates f m) ex stack stats alts pos =
      saveChoicePoint m ex stack stats alts pos := rfl

theorem retype_setStart (f : Nat → StateType) (m : FSM) (c : Nat) :
    ({ retypeStates f m with startState := c } : FSM) =
      retypeStates f { m with startState := c } := rfl

theorem retype_vwb (f : Nat → StateType) :
    ∀ fuel : Nat,
      (∀ (m : FSM) (ms : MachSt) (input : List Byte),
        validateWithBacktracking (retypeStates f m) ms input fuel =
          validateWithBacktracking m ms input fuel) ∧
      (∀ (m : FSM) (input : List Byte) (ex : ExecSt) (stk : List ChoicePoint)
          (bt : BtStats) (pos : Nat),
        vwbLoop (retypeStates f m) input ex stk bt pos fuel =
          vwbLoop m input ex stk bt pos fuel) ∧
      (∀ (m : FSM) (input : List Byte) (ex : ExecSt) (stk : List ChoicePoint)
          (bt : BtStats),
        vwbEnd (retypeStates f m) input ex stk bt fuel =
          vwbEnd m input ex stk bt fuel) := by
  intro fuel
  induction fuel with
  | zero => exact ⟨fun _ _ _ => rfl, fun _ _ _ _ _ _ => rfl, fun _ _ _ _ _ => rfl⟩
  | succ fuel ih =>
    refine ⟨fun m ms input => ?_, fun m input ex stk bt pos => ?_,
      fun m input ex stk bt => ?_⟩
    · simp only [validateWithBacktracking, retype_reset, retype_startState, ih.2.1]
    · simp only [vwbLoop, retype_getValidTransitions, retype_shouldCreateChoicePoint,
        retype_saveChoicePoint, retype_takeTransition, retype_processEpsilonTransitions,
        retype_isAcceptState, ih.2.1, ih.2.2]
    · simp only [vwbEnd, retype_processEpsilonTransitions, retype_isAcceptState,
        retype_setStart, ih.1, ih.2.2]

/-- C10: acceptance is determined solely by membership in the accept-state
set, never by `State.type`.  Rewriting every state's `type` tag arbitrarily
changes nothing about `validate`, `validateWithBacktracking` or
`endOfStream`; `isAcceptState` is literally accept-set membership;
`removeAcceptState` erases only the set entry, leaving every `State` record
(hence its `type`, which may remain `ACCEPT`) untouched, after which the
state no longer accepts; conversely only the set matters, so a NORMAL-typed
state in the set accepts. -/
theorem c10_acceptance_by_accept_set_only (m : FSM) (f : Nat → StateType)
    (ms : MachSt) (input : List Byte) (fuel : Nat) (s : Nat) :
    validate (retypeStates f m) ms input = validate m ms input ∧
    validateWithBacktracking (retypeStates f m) ms input fuel =
      validateWithBacktracking m ms input fuel ∧
    endOfStream (retypeStates f m) ms = endOfStream m ms ∧
    isAcceptState m s = m.acceptStates.contains s ∧
    isAcceptState (removeAcceptState m s) s = false ∧
    (removeAcceptState m s).states = m.states := by
  refine ⟨retype_validate f m ms input, (retype_vwb f fuel).1 m ms input,
    retype_endOfStream f m ms, rfl, ?_, rfl⟩
  simp [isAcceptState, removeAcceptState, List.elem_eq_mem, List.mem_filter]

/-! ## Claim C4: greedy selection under the unstable-sort contract -/

theorem insertPrio_perm (t : Transition) (l : List Transition) :
    (insertPrio t l).Perm (t :: l) := by
  induction l with
  | nil => exact List.Perm.refl _
  | cons u us ih =>
    by_cases h : t.priority ≤ u.priority
    · rw [insertPrio, if_pos h]
      exact (ih.cons u).trans (List.Perm.swap t u us)
    · rw [insertPrio, if_neg h]

theorem foldl_insertPrio_perm (l : List Transition) :
    ∀ acc, (l.foldl (fun acc t => insertPrio t acc) acc).Perm (l ++ acc) := by
  induction l with
  | nil => intro acc; simp
  | cons t rest ih =>
    intro acc
    simp only [List.foldl_cons, List.cons_append]
    exact (ih (insertPrio t acc)).trans
      ((List.Perm.append_left rest (insertPrio_perm t acc)).trans List.perm_middle)

theorem sortByPriority_perm (l : List Transition) : (sortByPriority l).Perm l := by
  have h := foldl_insertPrio_perm l []
  simpa [sortByPriority] using h

/-- The model's instantiated index (`sortByPriority`, a stable insertion
sort) is one conforming implementation of the `std::sort` contract. -/
theorem getTransitionsFrom_prioPerm (m : FSM) (s : Nat) :
    PrioPerm (m.transitions.filter (fun t => t.src == s)) (getTransitionsFrom m s) :=
  ⟨sortByPriority_perm _, sortByPriority_sorted _⟩

theorem find?_sorted_max (p : Transition → Bool) :
    ∀ idx : List Transition, PrioSorted idx → ∀ t, idx.find? p = some t →
      ∀ u ∈ idx, p u = true → u.priority ≤ t.priority := by
  intro idx
  induction idx with
  | nil => intro _ t h; exact Option.noConfusion h
  | cons a l ih =>
    intro hs t h
    rw [PrioSorted, List.pairwise_cons] at hs
    by_cases ha : p a
    · rw [List.find?_cons_of_pos _ ha, Option.some.injEq] at h
      subst h
      intro u hu _
      rcases List.mem_cons.mp hu with rfl | hu
      · exact le_refl _
      · exact hs.1 u hu
    · rw [List.find?_cons_of_neg _ ha] at h
      intro u hu hpu
      rcases List.mem_cons.mp hu with rfl | hu
      · exact absurd hpu ha
      · exact ih hs.2 t h u hu hpu

theorem find?_none_of_perm {α : Type} {p : α → Bool} {l l2 : List α}
    (hp : l.Perm l2) (h : l.find? p = none) : l2.find? p = none := by
  rw [List.find?_eq_none] at h ⊢
  intro x hx
  exact h x (hp.mem_iff.mpr hx)

/-- C4 counterexample: on `mTie`, state 1 has two equal-priority CLASS
edges both admitting the byte a; the first-inserted one (`tTie1`) leads to
state 2 and the second (`tTie2`) to state 3.  The index `[tTie2, tTie1]`
satisfies the full contract the source's unstable `std::sort` establishes
(`PrioPerm`: priority-descending permutation of the outgoing transitions),
yet its first admitting CLASS edge is `tTie2`, taking the executor to
state 3, while the claimed insertion-order tie-break — realised by the
model's stable `pickTransition` — selects `tTie1`, leading to state 2.
So the claimed tie-break is not guaranteed by the program. -/
theorem c4_tie_break_not_determined :
    tTie1.priority = tTie2.priority ∧
    mTie.transitions.filter (fun t => t.src == 1) = [tTie1, tTie2] ∧
    PrioPerm (mTie.transitions.filter (fun t => t.src == 1)) [tTie2, tTie1] ∧
    [tTie2, tTie1].find?
        (fun t => t.type == TransitionType.ABNF_RULE && t.matchesByte bA)
      = some tTie2 ∧
    pickTransition mTie 1 bA = some tTie1 ∧
    tTie2.dst ≠ tTie1.dst := by
  refine ⟨rfl, rfl, ⟨?_, ?_⟩, rfl, rfl, by decide⟩
  · show List.Perm [tTie2, tTie1] [tTie1, tTie2]
    exact List.Perm.swap tTie1 tTie2 []
  · simp [PrioSorted, tTie1, tTie2]

/-- C4 (corrected): the source builds each state's index with the unstable
`std::sort`, so only the contract `PrioPerm` (some priority-descending
permutation of the outgoing transitions; equal-priority order unspecified)
is guaranteed.  For every index satisfying the contract: the model's index
satisfies it; a selected transition is a CLASS edge whose predicate admits
the byte (so EPSILON edges are never consumed), drawn from the outgoing
transitions, of maximal priority among the admitting CLASS edges; whether
*some* transition is selected is independent of tie order (the source
fails exactly when the model's pick does); and when no CLASS transition
admits the byte, the step fails recording `NO_MATCHING_TRANSITION` with
the position, the offending byte and the current state. -/
theorem c4_greedy_selection_amended (m : FSM) (ex : ExecSt) (ch : Byte) (pos : Nat)
    (idx : List Transition)
    (hidx : PrioPerm (m.transitions.filter (fun t => t.src == ex.current)) idx) :
    PrioPerm (m.transitions.filter (fun t => t.src == ex.current))
      (getTransitionsFrom m ex.current) ∧
    (∀ t, idx.find? (fun t => t.type == TransitionType.ABNF_RULE && t.matchesByte ch)
        = some t →
      t.type = TransitionType.ABNF_RULE ∧ t.matchesByte ch = true ∧
      t ∈ m.transitions.filter (fun u => u.src == ex.current) ∧
      ∀ u ∈ m.transitions.filter (fun u => u.src == ex.current),
        u.type = TransitionType.ABNF_RULE → u.matchesByte ch = true →
          u.priority ≤ t.priority) ∧
    ((idx.find? (fun t => t.type == TransitionType.ABNF_RULE && t.matchesByte ch)
        = none) ↔ pickTransition m ex.current ch = none) ∧
    (pickTransition m ex.current ch = none →
      processCharImpl m ex ch pos =
        some ({ ex with
                lastError := some ⟨ErrorType.NO_MATCHING_TRANSITION, pos, ch, ex.current⟩ },
              false)) := by
  have hperm : idx.Perm (getTransitionsFrom m ex.current) :=
    hidx.1.trans (sortByPriority_perm _).symm
  refine ⟨getTransitionsFrom_prioPerm m ex.current, ?_, ?_, ?_⟩
  · intro t ht
    have hpt := List.find?_some ht
    rw [Bool.and_eq_true, beq_iff_eq] at hpt
    have hmem : t ∈ m.transitions.filter (fun u => u.src == ex.current) :=
      hidx.1.mem_iff.mp (List.mem_of_find?_eq_some ht)
    refine ⟨hpt.1, hpt.2, hmem, ?_⟩
    intro u hu hut hum
    refine find?_sorted_max _ idx hidx.2 t ht u (hidx.1.mem_iff.mpr hu) ?_
    rw [Bool.and_eq_true, beq_iff_eq]
    exact ⟨hut, hum⟩
  · constructor
    · intro h
      rw [pickTransition]
      exact find?_none_of_perm hperm h
    · intro h
      rw [pickTransition] at h
      exact find?_none_of_perm hperm.symm h
  · intro h
    simp only [processCharImpl, h]

/-- Witness for the amended C4 theorem: on `mTie` with the model's own
conforming index, the selected transition for byte a is `tTie1`, a CLASS
edge admitting a, outgoing from state 1, of maximal priority among the
admitting CLASS edges. -/
theorem c4_greedy_selection_amended_w :
    tTie1.type = TransitionType.ABNF_RULE ∧ tTie1.matchesByte bA = true ∧
    tTie1 ∈ mTie.transitions.filter (fun u => u.src == 1) ∧
    ∀ u ∈ mTie.transitions.filter (fun u => u.src == 1),
      u.type = TransitionType.ABNF_RULE → u.matchesByte bA = true →
        u.priority ≤ tTie1.priority := by
  have h := c4_greedy_selection_amended mTie (initMach mTie dbg0).exec bA 0
      (getTransitionsFrom mTie ((initMach mTie dbg0).exec.current))
      (getTransitionsFrom_prioPerm mTie ((initMach mTie dbg0).exec.current))
  exact h.2.1 tTie1 rfl
